import Mathlib

/-!
Shallow embedding of the minipass stream state machine (src/index.ts).

Modelling conventions, fixed once for the whole file:

* A payload item is a `List Nat`.  In Bytes mode an item is a Buffer (list of
  bytes); in Text mode an item is a string (list of code units); in object
  mode an item is an opaque value.  The source treats strings and Buffers
  identically through `length`, `slice`/`subarray`, `join`/`Buffer.concat`,
  which are the corresponding list operations.
* Chunks handed to `write` are mode-native: a Buffer in Bytes mode, a string
  in the stream encoding in Text mode (so the string fast path at
  src 613-627 keeps the chunk as-is and the decoder never holds partial
  bytes), any item in object mode.  Consequently the decoder flush in
  [EMITEND2] (src 1123-1131) yields the empty string and its `if (data)`
  branch is never taken.
* The EventEmitter dependency is modelled by per-channel handler lists plus
  an emission trace: every `super.emit(...)` call is recorded as a trace
  entry, and `super.emit` returns whether the channel had handlers.
  Handlers are passive identifiers (no re-entrancy), matching the spec
  scope of "emit an event to registered handlers".  Channels the model
  never subscribes to (resume, drain, user events, the internal markers)
  have a constantly empty handler list.
* `async` deferral (`defer = Promise.resolve().then(fn)`) is modelled by
  appending thunks to a microtask queue `mtq`; theorems about emission
  order are stated for synchronous streams (`asyncF = false`), the spec
  default, where the queue stays empty.  Write callbacks (`cb`) are not
  modelled; they only schedule a user callback and touch no stream state.
* `bufferLength` is an `Int`, since the source arithmetic on it is plain
  JS number arithmetic.
-/

namespace MinipassSpec

/-- A payload item, see the module comment. -/
abbrev Item := List Nat

/-- Errors raised or emitted by the stream. -/
inductive Err where
  /-- The `Cannot call write after a stream was destroyed` error carrying
  the code `ERR_STREAM_DESTROYED` (src 545-553). -/
  | streamDestroyed
  /-- The `write after end` error thrown by write (src 543). -/
  | writeAfterEnd
  /-- The `Encoding and objectMode may not be used together` TypeError
  (src 389-393). -/
  | encObjConflict
  /-- An arbitrary user-supplied error payload. -/
  | user (n : Nat)
  deriving DecidableEq, Repr

/-- An error-channel handler: either a user handler or the proxyErrors
handler installed by a `PipeProxyErrors` record (src 163-177). -/
inductive EH where
  | userH (n : Nat)
  | proxy (d : Nat)
  deriving DecidableEq, Repr

/-- One entry of the observable emission trace.  Entries named after an
event record a `super.emit` call on that channel; `destWrite`/`destEnd`
record calls into a pipe destination; `lateError` records a direct handler
invocation with the latched error (src 933-937, 174-176). -/
inductive TEv where
  | dataEv (c : Item)
  | readableEv (delivered : List Nat)
  | errorI (e : Err)
  | errorEv (e : Err) (delivered : List EH)
  | lateError (h : EH) (e : Err)
  | endEv
  | finishEv
  | prefinishEv
  | closeEv
  | resumeEv
  | drainEv
  | destroyedEv
  | userE (n : Nat)
  | destWrite (d : Nat) (c : Item)
  | destEnd (d : Nat)
  deriving DecidableEq, Repr

/-- A queued microtask created by `defer` (src 88). -/
inductive MT where
  | mEmitData (c : Item)
  | mEmitEnd2
  | mResume
  | mLateError (h : EH) (e : Err)
  deriving DecidableEq, Repr

/-- Event names accepted by the overridden `emit` (src 1050-1101).  Names
with no dedicated branch in the source dispatcher are `readable`, `drain`,
the internal DESTROYED marker and arbitrary user events; they all take the
final generic branch. -/
inductive EvName where
  | data (c : Item)
  | end_
  | close
  | error (e : Err)
  | resume
  | finish
  | prefinish
  | readable
  | drain
  | destroyedM
  | userN (n : Nat)
  deriving DecidableEq, Repr

/-- An internal pipe record (src 128-155): destination identity, the value
the destination returns from `write` (its backpressure behaviour), the
normalized `end` option and whether it is the error-proxying variant. -/
structure PipeRec where
  destId : Nat
  accepts : Bool
  optsEnd : Bool
  proxy : Bool
  deriving DecidableEq, Repr

/-- The handler registry of the underlying EventEmitter, restricted to the
channels the model can subscribe to.  All other channels are constantly
empty. -/
structure EE where
  dataLs : List Nat
  readableLs : List Nat
  errorLs : List EH
  endLs : List Nat
  finishLs : List Nat
  prefinishLs : List Nat
  closeLs : List Nat
  deriving DecidableEq, Repr

/-- The Minipass instance state: one field per symbol-keyed field of the
source class (src 346-373), plus the handler registry and the microtask
queue. -/
structure MState where
  flowing : Bool
  paused : Bool
  pipes : List PipeRec
  buffer : List Item
  objectMode : Bool
  hasEncoding : Bool
  asyncF : Bool
  eof : Bool
  emittedEnd : Bool
  emittingEnd : Bool
  closed : Bool
  emittedError : Option Err
  bufferLength : Int
  destroyed : Bool
  hasSignal : Bool
  aborted : Bool
  dataListeners : Nat
  discarded : Bool
  writable : Bool
  readable : Bool
  ee : EE
  mtq : List MT
  deriving DecidableEq, Repr

/-- Constructor options (src 256-304).  `encoding` means a real
BufferEncoding was supplied (the `null`/`buffer` forms count as absent). -/
structure MOptions where
  objectMode : Bool
  encoding : Bool
  asyncO : Bool
  signal : Bool
  deriving DecidableEq, Repr

/-- The empty handler registry. -/
def emptyEE : EE :=
  { dataLs := [], readableLs := [], errorLs := [], endLs := [],
    finishLs := [], prefinishLs := [], closeLs := [] }

/-- The field initialization performed by the constructor (src 346-427) for
a signal that has not already fired. -/
def freshStream (o : MOptions) : MState :=
  { flowing := false, paused := false, pipes := [], buffer := [],
    objectMode := o.objectMode,
    hasEncoding := !o.objectMode && o.encoding,
    asyncF := o.asyncO,
    eof := false, emittedEnd := false, emittingEnd := false, closed := false,
    emittedError := none, bufferLength := 0, destroyed := false,
    hasSignal := o.signal, aborted := false, dataListeners := 0,
    discarded := false, writable := true, readable := true,
    ee := emptyEE, mtq := [] }

/-- The constructor (src 381-427): throws a TypeError when encoding and
objectMode are combined, otherwise yields the fresh state. -/
def mkStream (o : MOptions) : Except Err MState :=
  if o.objectMode && o.encoding then .error .encObjConflict
  else .ok (freshStream o)

/-- Public `pause()` (src 776-780). -/
def pauseF (s : MState) : MState :=
  { s with flowing := false, paused := true, discarded := false }

/-- The pipe-forwarding loop at the head of [EMITDATA] (src 1104-1106):
each destination write is recorded; a `false` return pauses the source. -/
def pipesWrite : MState → List PipeRec → Item → MState × List TEv
  | s, [], _ => (s, [])
  | s, p :: ps, c =>
    let s1 := if p.accepts then s else pauseF s
    let r := pipesWrite s1 ps c
    (r.1, TEv.destWrite p.destId c :: r.2)

/-- The pipe-closing loop of [EMITEND2] (src 1133-1135): `p.end()` detaches
the drain subscription (external destination state), removes the
proxyErrors handler for the proxying variant (src 164-166), and ends the
destination when the end option was set (src 151-154). -/
def pipesEnd : MState → List PipeRec → MState × List TEv
  | s, [] => (s, [])
  | s, p :: ps =>
    let s1 :=
      if p.proxy then
        { s with ee := { s.ee with errorLs := s.ee.errorLs.erase (.proxy p.destId) } }
      else s
    let tr0 := if p.optsEnd then [TEv.destEnd p.destId] else []
    let r := pipesEnd s1 ps
    (r.1, tr0 ++ r.2)

/-- [EMITEND2] (src 1122-1139).  The decoder flush (src 1123-1131) yields
no data on the modelled input class (the decoder never receives bytes), so
its `if (data)` branch is skipped.  Then every pipe record is ended, `end`
is emitted and all end listeners are removed. -/
def emitEnd2 (s : MState) : MState × List TEv × Bool :=
  let r := pipesEnd s s.pipes
  let ret := !r.1.ee.endLs.isEmpty
  ({ r.1 with ee := { r.1.ee with endLs := [] } }, r.2 ++ [TEv.endEv], ret)

/-- [EMITEND] (src 1112-1120): ignored when `end` already fired; otherwise
latches `emittedEnd`, clears `readable`, and runs [EMITEND2] now (sync) or
on the next turn (async). -/
def emitEndF (s : MState) : MState × List TEv × Bool :=
  if s.emittedEnd then (s, [], false)
  else
    let s1 := { s with emittedEnd := true, readable := false }
    if s1.asyncF then ({ s1 with mtq := s1.mtq ++ [MT.mEmitEnd2] }, [], true)
    else emitEnd2 s1

/-- The `finish` branch of `emit` (src 1091-1094): emit, then remove all
finish listeners. -/
def emitFinishF (s : MState) : MState × List TEv × Bool :=
  let ret := !s.ee.finishLs.isEmpty
  ({ s with ee := { s.ee with finishLs := [] } }, [TEv.finishEv], ret)

/-- The `prefinish` branch of `emit` (src 1091-1094): emit, then remove all
prefinish listeners. -/
def emitPrefinishF (s : MState) : MState × List TEv × Bool :=
  let ret := !s.ee.prefinishLs.isEmpty
  ({ s with ee := { s.ee with prefinishLs := [] } }, [TEv.prefinishEv], ret)

/-- The `close` branch of `emit` (src 1071-1077): latch `closed`; defer the
event (return false) until `end` has been emitted or the stream is
destroyed; otherwise emit and remove all close listeners. -/
def emitCloseF (s : MState) : MState × List TEv × Bool :=
  let s1 := { s with closed := true }
  if !s1.emittedEnd && !s1.destroyed then (s1, [], false)
  else
    let ret := !s1.ee.closeLs.isEmpty
    ({ s1 with ee := { s1.ee with closeLs := [] } }, [TEv.closeEv], ret)

/-- The firing condition of [MAYBE_EMIT_END] (src 1010-1016). -/
def fireGuardB (s : MState) : Bool :=
  !s.emittingEnd && !s.emittedEnd && !s.destroyed && s.buffer.isEmpty && s.eof

/-- [MAYBE_EMIT_END] (src 1009-1024).  When the guard holds it emits, via
`this.emit`, the events `end`, `prefinish`, `finish` and, when `closed` was
latched, `close`; `emittingEnd` guards re-entrance.  Since the guard gives
`destroyed = false`, each of those `this.emit` calls takes exactly its
dedicated dispatcher branch, inlined here as the corresponding leaf
function. -/
def maybeEmitEnd (s : MState) : MState × List TEv :=
  if fireGuardB s then
    let r1 := emitEndF { s with emittingEnd := true }
    let r2 := emitPrefinishF r1.1
    let r3 := emitFinishF r2.1
    let r4 :=
      if r3.1.closed then
        let r := emitCloseF r3.1
        (r.1, r.2.1)
      else (r3.1, ([] : List TEv))
    ({ r4.1 with emittingEnd := false }, r1.2.1 ++ r2.2.1 ++ r3.2.1 ++ r4.2)
  else (s, [])

/-- [EMITDATA] (src 1103-1110): forward the chunk to every pipe destination
(pausing on a false return), emit `data` to listeners unless discarded,
then run the endish check. -/
def emitDataF (s : MState) (c : Item) : MState × List TEv × Bool :=
  let r1 := pipesWrite s s.pipes c
  let rt :=
    if r1.1.discarded then (false, ([] : List TEv))
    else (!r1.1.ee.dataLs.isEmpty, [TEv.dataEv c])
  let r2 := maybeEmitEnd r1.1
  (r2.1, r1.2 ++ rt.2 ++ r2.2, rt.1)

/-- The `error` branch of `emit` (src 1078-1086): latch the last error,
emit on the internal ERROR channel unconditionally, emit the public error
unless a signal was supplied and there are no error listeners, then run
the endish check. -/
def emitErrorF (s : MState) (e : Err) : MState × List TEv × Bool :=
  let s1 := { s with emittedError := some e }
  let tr1 := [TEv.errorI e]
  let rt :=
    if !s1.hasSignal || !s1.ee.errorLs.isEmpty
    then (!s1.ee.errorLs.isEmpty, [TEv.errorEv e s1.ee.errorLs])
    else (false, ([] : List TEv))
  let r2 := maybeEmitEnd s1
  (r2.1, tr1 ++ rt.2 ++ r2.2, rt.1)

/-- Whether an event may still be emitted after `destroy` (src 1056-1062):
only `error`, `close` and the internal DESTROYED marker. -/
def allowedWhenDestroyed : EvName → Bool
  | .error _ => true
  | .close => true
  | .destroyedM => true
  | _ => false

/-- The overridden `emit` (src 1050-1101).  Channels with no dedicated
branch (readable, drain, the DESTROYED marker, user events) take the
generic tail: forward to the EventEmitter, then run the endish check.  The
model registry has no handlers on resume, drain, DESTROYED or user
channels, so those `super.emit` calls return false. -/
def emit (s : MState) (ev : EvName) : MState × List TEv × Bool :=
  if s.destroyed && !allowedWhenDestroyed ev then (s, [], false)
  else
    match ev with
    | .data c =>
      if !s.objectMode && c.isEmpty then (s, [], false)
      else if s.asyncF then ({ s with mtq := s.mtq ++ [MT.mEmitData c] }, [], true)
      else emitDataF s c
    | .end_ => emitEndF s
    | .close => emitCloseF s
    | .error e => emitErrorF s e
    | .resume =>
      let r := maybeEmitEnd s
      (r.1, TEv.resumeEv :: r.2, false)
    | .finish => emitFinishF s
    | .prefinish => emitPrefinishF s
    | .readable =>
      let r := maybeEmitEnd s
      (r.1, TEv.readableEv s.ee.readableLs :: r.2, !s.ee.readableLs.isEmpty)
    | .drain =>
      let r := maybeEmitEnd s
      (r.1, TEv.drainEv :: r.2, false)
    | .destroyedM =>
      let r := maybeEmitEnd s
      (r.1, TEv.destroyedEv :: r.2, false)
    | .userN n =>
      let r := maybeEmitEnd s
      (r.1, TEv.userE n :: r.2, false)

/-- [BUFFERPUSH] (src 804-808): append the item and bump `bufferLength` by
its size metric (1 in object mode, length otherwise). -/
def bufferPush (s : MState) (c : Item) : MState :=
  if s.objectMode then
    { s with bufferLength := s.bufferLength + 1, buffer := s.buffer ++ [c] }
  else
    { s with bufferLength := s.bufferLength + (c.length : Int), buffer := s.buffer ++ [c] }

/-- [BUFFERSHIFT] (src 810-817): remove the head item and decrement
`bufferLength` by its size metric.  Every call site guards on a nonempty
buffer (src 592, 630, 755, 821), so the empty case is unreachable and
modelled as the identity. -/
def bufferShift (s : MState) : MState × Item :=
  match s.buffer with
  | [] => (s, [])
  | c :: rest =>
    let s1 :=
      if s.objectMode then { s with bufferLength := s.bufferLength - 1 }
      else { s with bufferLength := s.bufferLength - (c.length : Int) }
    ({ s1 with buffer := rest }, c)

/-- [FLUSHCHUNK] (src 828-831): emit the chunk as data and report whether
the stream is still flowing afterwards. -/
def flushChunkF (s : MState) (c : Item) : MState × List TEv × Bool :=
  let r := emit s (.data c)
  (r.1, r.2.1, r.1.flowing)

/-- The do-while loop of [FLUSH] (src 820-823), fuelled by the buffer
length: each pass shifts exactly one item and emission never grows the
buffer, so `buffer.length` bounds the iterations. -/
def flushLoop : Nat → MState → MState × List TEv
  | 0, s => (s, [])
  | fuel + 1, s =>
    match s.buffer with
    | [] => (s, [])
    | _ :: _ =>
      let rs := bufferShift s
      let rc := flushChunkF rs.1 rs.2
      if rc.2.2 && !rc.1.buffer.isEmpty then
        let r := flushLoop fuel rc.1
        (r.1, rc.2.1 ++ r.2)
      else (rc.1, rc.2.1)

/-- [FLUSH] (src 819-826): drain the buffer through [FLUSHCHUNK], then emit
`drain` unless suppressed, the buffer refilled, or EOF was seen. -/
def flush (s : MState) (noDrain : Bool) : MState × List TEv :=
  let r1 := flushLoop s.buffer.length s
  if !noDrain && r1.1.buffer.isEmpty && !r1.1.eof then
    let r2 := emit r1.1 .drain
    (r2.1, r1.2 ++ r2.2.1)
  else r1

/-- The shared tail of `write` (src 589-602 for object mode, src 629-639
for bytes and text, textually identical in the source): flush a nonempty
buffer when flowing, emit or push the chunk, emit readable on a nonempty
buffer, return the flowing flag. -/
def writeTail (s : MState) (c : Item) : MState × List TEv × Except Err Bool :=
  let r1 := if s.flowing && s.bufferLength != 0 then flush s true else (s, [])
  let r2 :=
    if r1.1.flowing then
      let r := emit r1.1 (.data c)
      (r.1, r.2.1)
    else (bufferPush r1.1 c, [])
  let r3 :=
    if r2.1.bufferLength != 0 then
      let r := emit r2.1 .readable
      (r.1, r.2.1)
    else (r2.1, [])
  (r3.1, r1.2 ++ r2.2 ++ r3.2, .ok r3.1.flowing)

/-- Public `write` (src 537-640) for mode-native chunks (module comment):
the normalization (src 569-585) and the string fast path / decoder dance
(src 613-627) are the identity on that input class.  Returns the thrown
error for a write after end, otherwise the boolean result. -/
def write (s : MState) (c : Item) : MState × List TEv × Except Err Bool :=
  if s.aborted then (s, [], .ok false)
  else if s.eof then (s, [], .error .writeAfterEnd)
  else if s.destroyed then
    let r := emit s (.error .streamDestroyed)
    (r.1, r.2.1, .ok true)
  else if s.objectMode then writeTail s c
  else if c.isEmpty then
    let r1 :=
      if s.bufferLength != 0 then
        let r := emit s .readable
        (r.1, r.2.1)
      else (s, [])
    (r1.1, r1.2, .ok r1.1.flowing)
  else writeTail s c

/-- JS index normalization shared by `String.prototype.slice` and
`TypedArray.prototype.subarray`: a negative index counts from the end,
clamped to the range. -/
def jsIdx (len : Nat) (i : Int) : Nat :=
  if i < 0 then ((len : Int) + i).toNat else min i.toNat len

/-- `c.slice(n)` / `c.subarray(n)` on the list model. -/
def jsSliceFrom (c : Item) (n : Int) : Item := c.drop (jsIdx c.length n)

/-- `c.slice(0, n)` / `c.subarray(0, n)` on the list model. -/
def jsSliceTo (c : Item) (n : Int) : Item := c.take (jsIdx c.length n)

/-- `Buffer.concat(list, totalLength)` (src 676-679): the result has
exactly `totalLength` bytes, truncating or zero-filling the concatenation
as needed. -/
def jsBufferConcat (bufs : List Item) (total : Int) : Item :=
  let flat := bufs.flatten
  let t := total.toNat
  flat.take t ++ List.replicate (t - flat.length) 0

/-- The truthy third disjunct of the read guard, `n && n > bufferLength`
(src 659-663). -/
def readNullArg (n : Option Int) (bl : Int) : Bool :=
  match n with
  | some k => k != 0 && bl < k
  | none => false

/-- The mutation step of [READ] (src 689-702): shift the whole head item,
or split it into a returned prefix and a retained suffix, decrementing
`bufferLength` by `n`.  String `.slice` and Buffer `.subarray` coincide on
the list model, so the two split branches (src 693-701) collapse into
one. -/
def readSplit (s : MState) (n : Option Int) (chunk : Item) : MState × Item :=
  if s.objectMode then ((bufferShift s).1, chunk)
  else
    match n with
    | none => ((bufferShift s).1, chunk)
    | some k =>
      if k = (chunk.length : Int) then ((bufferShift s).1, chunk)
      else
        ({ s with buffer := jsSliceFrom chunk k :: s.buffer.tail,
                  bufferLength := s.bufferLength - k },
         jsSliceTo chunk k)

/-- The emission tail of [READ] (src 704-708): emit the returned chunk as
data, and `drain` when the buffer emptied before EOF. -/
def readI (s : MState) (n : Option Int) (chunk : Item) : MState × List TEv × Item :=
  let r0 := readSplit s n chunk
  let r1 := emit r0.1 (.data r0.2)
  let r2 :=
    if r1.1.buffer.isEmpty && !r1.1.eof then
      let r := emit r1.1 .drain
      (r.1, r.2.1)
    else (r1.1, [])
  (r2.1, r1.2.1 ++ r2.2, r0.2)

/-- The coalesce step of `read` (src 670-681): a multi-item buffer in a
non-object stream is replaced by its single aggregate item — the joined
string under an encoding, or `Buffer.concat(buffer, bufferLength)`. -/
def coalesceStep (t : MState) : MState :=
  if t.buffer.length > 1 && !t.objectMode then
    { t with buffer :=
        [if t.hasEncoding then t.buffer.flatten
         else jsBufferConcat t.buffer t.bufferLength] }
  else t

/-- Public `read(n)` (src 655-686): null on a destroyed stream; clears the
discarded latch; null (after the endish check) on an empty buffer, `n = 0`
or `n` exceeding `bufferLength`; object mode ignores `n`; a multi-item
buffer is coalesced into one item first; then [READ] splits or shifts. -/
def read (s : MState) (n : Option Int) : MState × List TEv × Option Item :=
  if s.destroyed then (s, [], none)
  else
    let s0 := { s with discarded := false }
    if s0.bufferLength == 0 || n == some 0 || readNullArg n s0.bufferLength then
      let r := maybeEmitEnd s0
      (r.1, r.2, none)
    else
      let n1 := if s0.objectMode then none else n
      let s1 := coalesceStep s0
      let nOr : Option Int :=
        match n1 with
        | some k => if k = 0 then none else some k
        | none => none
      let r1 := readI s1 nOr (s1.buffer.headD [])
      let r2 := maybeEmitEnd r1.1
      (r2.1, r1.2.1 ++ r2.2, some r1.2.2)

/-- Public `end(chunk?)` (src 716-743).  A supplied chunk is written first
(a throw from that write propagates before EOF is latched); the `cb`
variants only register an end listener and are not modelled.  Then `eof`
is set, `writable` cleared, and the endish check runs when flowing or not
paused. -/
def endS (s : MState) (chunk : Option Item) : MState × List TEv × Option Err :=
  let r0 :=
    match chunk with
    | some c =>
      let r := write s c
      (r.1, r.2.1, match r.2.2 with | .error e => some e | .ok _ => none)
    | none => (s, [], none)
  match r0.2.2 with
  | some e => (r0.1, r0.2.1, some e)
  | none =>
    let s2 := { r0.1 with eof := true, writable := false }
    let r1 :=
      if s2.flowing || !s2.paused then maybeEmitEnd s2 else (s2, [])
    (r1.1, r0.2.1 ++ r1.2, none)

/-- [RESUME] (src 746-758): a no-op when destroyed; latches discarded when
there is no consumer; sets flowing, emits `resume`, then flushes a
nonempty buffer, or runs the endish check at EOF, or emits `drain`. -/
def resumeI (s : MState) : MState × List TEv :=
  if s.destroyed then (s, [])
  else
    let s1 :=
      if s.dataListeners == 0 && s.pipes.isEmpty then { s with discarded := true }
      else s
    let s2 := { s1 with paused := false, flowing := true }
    let r1 := emit s2 .resume
    if !r1.1.buffer.isEmpty then
      let r2 := flush r1.1 false
      (r2.1, r1.2.1 ++ r2.2)
    else if r1.1.eof then
      let r2 := maybeEmitEnd r1.1
      (r2.1, r1.2.1 ++ r2.2)
    else
      let r2 := emit r1.1 .drain
      (r2.1, r1.2.1 ++ r2.2.1)

/-- Public `destroy(er?)` (src 1309-1333): when already destroyed, re-emit
the error or the internal DESTROYED marker; otherwise latch destroyed and
discarded, throw away the buffer, skip the subclass close hook (the base
class has none), and emit the error or the DESTROYED marker. -/
def destroyF (s : MState) (er : Option Err) : MState × List TEv :=
  if s.destroyed then
    match er with
    | some e =>
      let r := emit s (.error e)
      (r.1, r.2.1)
    | none =>
      let r := emit s .destroyedM
      (r.1, r.2.1)
  else
    let s1 := { s with destroyed := true, discarded := true,
                       buffer := [], bufferLength := 0 }
    match er with
    | some e =>
      let r := emit s1 (.error e)
      (r.1, r.2.1)
    | none =>
      let r := emit s1 .destroyedM
      (r.1, r.2.1)

/-- A pipe destination as the model sees it: its identity, whether it is
the process stdout or stderr object (src 844), and the value its `write`
returns. -/
structure Dest where
  destId : Nat
  isStdio : Bool
  accepts : Bool
  deriving DecidableEq, Repr

/-- Options passed to `pipe` (src 112-121), before normalization. -/
structure POpts where
  endO : Option Bool
  proxyErrors : Option Bool
  deriving DecidableEq, Repr

/-- The normalized `end` option of a pipe call (src 844-845): forced false
for the process stdout/stderr sink, otherwise true unless `end: false` was
passed. -/
def effEnd (dest : Dest) (opts : POpts) : Bool :=
  if dest.isStdio then false else !(opts.endO == some false)

/-- Public `pipe(dest, opts)` (src 838-864): a no-op when destroyed;
clears discarded; normalizes the options; on an already-ended stream ends
the destination (when the end option holds) without adding a record;
otherwise appends a pipe record — the proxyErrors variant also subscribes
its proxy handler to this stream (through the overridden `on`, so a
latched error fires it immediately) — and triggers flow via [RESUME], now
or deferred. -/
def pipeF (s : MState) (dest : Dest) (opts : POpts) : MState × List TEv :=
  if s.destroyed then (s, [])
  else
    let s0 := { s with discarded := false }
    let ended := s0.emittedEnd
    let oEnd := effEnd dest opts
    let oProxy := opts.proxyErrors == some true
    if ended then
      if oEnd then (s0, [TEv.destEnd dest.destId]) else (s0, [])
    else
      let rp :=
        if oProxy then
          let sa := { s0 with ee :=
            { s0.ee with errorLs := s0.ee.errorLs ++ [EH.proxy dest.destId] } }
          match sa.emittedError with
          | some e =>
            if sa.asyncF then
              ({ sa with mtq := sa.mtq ++ [MT.mLateError (EH.proxy dest.destId) e] },
               ([] : List TEv))
            else (sa, [TEv.lateError (EH.proxy dest.destId) e])
          | none => (sa, [])
        else (s0, [])
      let newRec : PipeRec :=
        { destId := dest.destId, accepts := dest.accepts,
          optsEnd := oEnd, proxy := oProxy }
      let s2 := { rp.1 with pipes := rp.1.pipes ++ [newRec] }
      if s2.asyncF then ({ s2 with mtq := s2.mtq ++ [MT.mResume] }, rp.2)
      else
        let r2 := resumeI s2
        (r2.1, rp.2 ++ r2.2)

/-- The subscribable channels of the overridden `on` (src 914-939). -/
inductive Chan where
  | dataC
  | readableC
  | errorC
  | endC
  | finishC
  | prefinishC
  | closeC
  deriving DecidableEq, Repr

/-- `super.on`: append the handler to its channel list. -/
def eeAdd (e : EE) (ch : Chan) (h : Nat) : EE :=
  match ch with
  | .dataC => { e with dataLs := e.dataLs ++ [h] }
  | .readableC => { e with readableLs := e.readableLs ++ [h] }
  | .errorC => { e with errorLs := e.errorLs ++ [EH.userH h] }
  | .endC => { e with endLs := e.endLs ++ [h] }
  | .finishC => { e with finishLs := e.finishLs ++ [h] }
  | .prefinishC => { e with prefinishLs := e.prefinishLs ++ [h] }
  | .closeC => { e with closeLs := e.closeLs ++ [h] }

/-- `removeAllListeners(ev)` for an endish channel (src 991-1000): clears
the channel list; the data-listener bookkeeping branch applies only to
the data channel or a blanket removal. -/
def clearCh (s : MState) (ch : Chan) : MState :=
  match ch with
  | .endC => { s with ee := { s.ee with endLs := [] } }
  | .finishC => { s with ee := { s.ee with finishLs := [] } }
  | .prefinishC => { s with ee := { s.ee with prefinishLs := [] } }
  | _ => s

/-- The overridden `on` (src 914-939): after `super.on`, a data handler
clears discarded, bumps the counter and resumes a non-flowing unpiped
stream; a readable handler with buffered data triggers an immediate
readable emission; an endish handler after `end` gets an immediate
emission and the channel is cleared; an error handler after a latched
error is invoked with it, now or deferred. -/
def onE (s : MState) (ch : Chan) (h : Nat) : MState × List TEv :=
  let s0 := { s with ee := eeAdd s.ee ch h }
  match ch with
  | .dataC =>
    let s1 := { s0 with discarded := false, dataListeners := s0.dataListeners + 1 }
    if s1.pipes.isEmpty && !s1.flowing then resumeI s1 else (s1, [])
  | .readableC =>
    if s0.bufferLength != 0 then (s0, [TEv.readableEv s0.ee.readableLs])
    else (s0, [])
  | .endC =>
    if s0.emittedEnd then (clearCh s0 .endC, [TEv.endEv]) else (s0, [])
  | .finishC =>
    if s0.emittedEnd then (clearCh s0 .finishC, [TEv.finishEv]) else (s0, [])
  | .prefinishC =>
    if s0.emittedEnd then (clearCh s0 .prefinishC, [TEv.prefinishEv]) else (s0, [])
  | .errorC =>
    match s0.emittedError with
    | some e =>
      if s0.asyncF then
        ({ s0 with mtq := s0.mtq ++ [MT.mLateError (EH.userH h) e] }, [])
      else (s0, [TEv.lateError (EH.userH h) e])
    | none => (s0, [])
  | .closeC => (s0, [])

/-- The `async` setter (src 490-492): monotone, a sync stream can be made
async but never the reverse. -/
def setAsyncP (s : MState) (a : Bool) : MState :=
  { s with asyncF := s.asyncF || a }

/-- A public operation, for invariant statements quantified over call
sequences. -/
inductive Op where
  | wr (c : Item)
  | rd (n : Option Int)
  | endO (c : Option Item)
  | resumeO
  | pauseO
  | destroyO (e : Option Err)
  deriving DecidableEq, Repr

/-- Run one public operation for its state effect. -/
def runOp (s : MState) : Op → MState
  | .wr c => (write s c).1
  | .rd n => (read s n).1
  | .endO c => (endS s c).1
  | .resumeO => (resumeI s).1
  | .pauseO => pauseF s
  | .destroyO e => (destroyF s e).1

/-- Run a sequence of public operations. -/
def runOps (s : MState) (ops : List Op) : MState := ops.foldl runOp s

/-- The per-item size metric (src 804-816): 1 in object mode, the item
length otherwise. -/
def itemSize (om : Bool) (c : Item) : Int := if om then 1 else (c.length : Int)

/-- The aggregate size of a buffer. -/
def sumSizes (om : Bool) (l : List Item) : Int := (l.map (itemSize om)).sum

/-- The bufferLength invariant claimed by the spec. -/
def sizeInv (s : MState) : Prop := s.bufferLength = sumSizes s.objectMode s.buffer

instance (s : MState) : Decidable (sizeInv s) := by
  unfold sizeInv
  infer_instance

/-- The data payloads of a trace, in emission order. -/
def dataPayloads (tr : List TEv) : List Item :=
  tr.filterMap fun t =>
    match t with
    | .dataEv c => some c
    | _ => none

/-- Run a sequence of writes, accumulating the trace. -/
def runWrites (s : MState) (ws : List Item) : MState × List TEv :=
  ws.foldl
    (fun (p : MState × List TEv) c =>
      let r := write p.1 c
      (r.1, p.2 ++ r.2.1))
    (s, [])

/-- The four endish stream events of the closing sequence. -/
def isEndishTE : TEv → Bool
  | .endEv => true
  | .prefinishEv => true
  | .finishEv => true
  | .closeEv => true
  | _ => false

/-- Fields preserved by every function of the endish emission path. -/
def endishCore (a b : MState) : Prop :=
  a.flowing = b.flowing ∧ a.paused = b.paused ∧ a.pipes = b.pipes ∧
  a.buffer = b.buffer ∧ a.objectMode = b.objectMode ∧
  a.hasEncoding = b.hasEncoding ∧ a.asyncF = b.asyncF ∧ a.eof = b.eof ∧
  a.emittedError = b.emittedError ∧ a.bufferLength = b.bufferLength ∧
  a.destroyed = b.destroyed ∧ a.hasSignal = b.hasSignal ∧
  a.aborted = b.aborted ∧ a.dataListeners = b.dataListeners ∧
  a.discarded = b.discarded ∧ a.writable = b.writable

/-- A Bytes-mode stream fresh from the constructor, no options. -/
def initB : MState := freshStream ⟨false, false, false, false⟩

/-- A fresh stream constructed with an abort signal, then destroyed by a
plain `destroy()` call — destroyed but never aborted. -/
def sigDestroyed : MState :=
  (destroyF (freshStream ⟨false, false, false, true⟩) none).1

/-- A fresh signal-free stream destroyed by a plain `destroy()` call. -/
def plainDestroyed : MState := (destroyF initB none).1

/-- The C1 scenario: a live, flowing, non-discarded synchronous stream
with an empty buffer, before EOF, whose pipe destinations all accept
writes.  This is the state reached by attaching a consumer (`on('data')`
or `pipe`) to a fresh stream. -/
def c1Ready (s : MState) : Prop :=
  s.flowing = true ∧ s.discarded = false ∧ s.destroyed = false ∧
  s.aborted = false ∧ s.eof = false ∧ s.emittedEnd = false ∧
  s.emittingEnd = false ∧ s.buffer = [] ∧ s.bufferLength = 0 ∧
  s.asyncF = false ∧ (∀ p ∈ s.pipes, p.accepts = true)

instance (s : MState) : Decidable (c1Ready s) := by
  unfold c1Ready
  infer_instance

/-- The trace of one write in the C1 scenario. -/
def writeTrC1 (s : MState) (c : Item) : List TEv :=
  if s.objectMode = false ∧ c = [] then []
  else (s.pipes.map fun p => TEv.destWrite p.destId c) ++ [TEv.dataEv c]

/-- Whether an operation passes a nonnegative (or absent) read argument. -/
def readArgOkB : Op → Bool
  | .rd (some k) => decide (0 ≤ k)
  | _ => true

/-! ### Preservation lemmas

Event emission never touches the buffer, the mode flags, the pipe list or
the lifecycle inputs; `emitCore a b` collects the fields of `a` that agree
with `b` across every emission path. -/

/-- Fields untouched by every emission function. -/
def emitCore (a b : MState) : Prop :=
  a.buffer = b.buffer ∧ a.bufferLength = b.bufferLength ∧
  a.objectMode = b.objectMode ∧ a.hasEncoding = b.hasEncoding ∧
  a.pipes = b.pipes ∧ a.asyncF = b.asyncF ∧ a.eof = b.eof ∧
  a.destroyed = b.destroyed ∧ a.aborted = b.aborted ∧
  a.hasSignal = b.hasSignal ∧ a.dataListeners = b.dataListeners

theorem emitCore_refl (s : MState) : emitCore s s := by
  simp [emitCore]

theorem emitCore_trans {a b c : MState} (h1 : emitCore a b) (h2 : emitCore b c) :
    emitCore a c := by
  obtain ⟨e1, e2, e3, e4, e5, e6, e7, e8, e9, e10, e11⟩ := h1
  obtain ⟨f1, f2, f3, f4, f5, f6, f7, f8, f9, f10, f11⟩ := h2
  exact ⟨e1.trans f1, e2.trans f2, e3.trans f3, e4.trans f4, e5.trans f5,
    e6.trans f6, e7.trans f7, e8.trans f8, e9.trans f9, e10.trans f10,
    e11.trans f11⟩

theorem pauseF_core (s : MState) : emitCore (pauseF s) s := by
  simp [emitCore, pauseF]

theorem update_core_ee (s : MState) (e : EE) :
    emitCore { s with ee := e } s := by
  simp [emitCore]

theorem pipesWrite_core (l : List PipeRec) (s : MState) (c : Item) :
    emitCore (pipesWrite s l c).1 s := by
  induction l generalizing s with
  | nil => exact emitCore_refl s
  | cons p ps ih =>
    cases hp : p.accepts with
    | true =>
      simp only [pipesWrite, hp, if_true]
      exact ih s
    | false =>
      simp only [pipesWrite, hp, if_false]
      exact emitCore_trans (ih (pauseF s)) (pauseF_core s)

theorem pipesEnd_core (l : List PipeRec) (s : MState) :
    emitCore (pipesEnd s l).1 s := by
  induction l generalizing s with
  | nil => exact emitCore_refl s
  | cons p ps ih =>
    cases hp : p.proxy with
    | true =>
      simp only [pipesEnd, hp, if_true]
      exact emitCore_trans (ih _) (update_core_ee s _)
    | false =>
      simp only [pipesEnd, hp, if_false]
      exact ih s

theorem emitEnd2_core (s : MState) : emitCore (emitEnd2 s).1 s := by
  refine emitCore_trans ?_ (pipesEnd_core s.pipes s)
  simp [emitEnd2, emitCore]

theorem emitEndF_core (s : MState) : emitCore (emitEndF s).1 s := by
  cases h : s.emittedEnd with
  | true => simp [emitEndF, h, emitCore_refl]
  | false =>
    cases ha : s.asyncF with
    | true => simp [emitEndF, h, ha, emitCore]
    | false =>
      have h2 := emitEnd2_core { s with emittedEnd := true, readable := false }
      refine emitCore_trans ?_
        (show emitCore { s with emittedEnd := true, readable := false } s by
          simp [emitCore])
      simpa [emitEndF, h, ha] using h2

theorem emitFinishF_core (s : MState) : emitCore (emitFinishF s).1 s := by
  simp [emitFinishF, emitCore]

theorem emitPrefinishF_core (s : MState) : emitCore (emitPrefinishF s).1 s := by
  simp [emitPrefinishF, emitCore]

theorem emitCloseF_core (s : MState) : emitCore (emitCloseF s).1 s := by
  simp only [emitCloseF]
  split
  · simp [emitCore]
  · simp [emitCore]

theorem update_core_emittingEnd (s : MState) (b : Bool) :
    emitCore { s with emittingEnd := b } s := by
  simp [emitCore]

theorem maybeEmitEnd_core (s : MState) : emitCore (maybeEmitEnd s).1 s := by
  cases hg : fireGuardB s with
  | false => simp [maybeEmitEnd, hg, emitCore_refl]
  | true =>
    simp only [maybeEmitEnd, hg, if_true]
    have c1 := emitEndF_core { s with emittingEnd := true }
    have c2 := emitPrefinishF_core (emitEndF { s with emittingEnd := true }).1
    have c3 := emitFinishF_core
      (emitPrefinishF (emitEndF { s with emittingEnd := true }).1).1
    have c123 : emitCore
        (emitFinishF (emitPrefinishF (emitEndF { s with emittingEnd := true }).1).1).1 s :=
      emitCore_trans c3 (emitCore_trans c2
        (emitCore_trans c1 (update_core_emittingEnd s true)))
    split
    · exact emitCore_trans (update_core_emittingEnd _ false)
        (emitCore_trans (emitCloseF_core _) c123)
    · exact emitCore_trans (update_core_emittingEnd _ false) c123

theorem emitDataF_core (s : MState) (c : Item) : emitCore (emitDataF s c).1 s := by
  simp only [emitDataF]
  exact emitCore_trans (maybeEmitEnd_core _) (pipesWrite_core s.pipes s c)

theorem emitErrorF_core (s : MState) (e : Err) : emitCore (emitErrorF s e).1 s := by
  simp only [emitErrorF]
  exact emitCore_trans (maybeEmitEnd_core _) (by simp [emitCore])

theorem emit_core (s : MState) (ev : EvName) : emitCore (emit s ev).1 s := by
  cases hd : s.destroyed && !allowedWhenDestroyed ev with
  | true => simp [emit, hd, emitCore_refl]
  | false =>
    cases ev with
    | data c =>
      cases hz : !s.objectMode && c.isEmpty with
      | true => simp [emit, hd, hz, emitCore_refl]
      | false =>
        cases ha : s.asyncF with
        | true => simp [emit, hd, hz, ha, emitCore]
        | false =>
          simp only [emit, hd, hz, ha, Bool.false_eq_true, if_false]
          exact emitDataF_core s c
    | end_ =>
      simp only [emit, hd, Bool.false_eq_true, if_false]
      exact emitEndF_core s
    | close =>
      simp only [emit, hd, Bool.false_eq_true, if_false]
      exact emitCloseF_core s
    | error e =>
      simp only [emit, hd, Bool.false_eq_true, if_false]
      exact emitErrorF_core s e
    | resume =>
      simp only [emit, hd, Bool.false_eq_true, if_false]
      exact maybeEmitEnd_core s
    | finish =>
      simp only [emit, hd, Bool.false_eq_true, if_false]
      exact emitFinishF_core s
    | prefinish =>
      simp only [emit, hd, Bool.false_eq_true, if_false]
      exact emitPrefinishF_core s
    | readable =>
      simp only [emit, hd, Bool.false_eq_true, if_false]
      exact maybeEmitEnd_core s
    | drain =>
      simp only [emit, hd, Bool.false_eq_true, if_false]
      exact maybeEmitEnd_core s
    | destroyedM =>
      simp only [emit, hd, Bool.false_eq_true, if_false]
      exact maybeEmitEnd_core s
    | userN n =>
      simp only [emit, hd, Bool.false_eq_true, if_false]
      exact maybeEmitEnd_core s

/-! ### Trace lemmas for the endish path -/

theorem endishCore_refl (s : MState) : endishCore s s := by
  simp [endishCore]

theorem endishCore_trans {a b c : MState} (h1 : endishCore a b)
    (h2 : endishCore b c) : endishCore a c := by
  obtain ⟨e1, e2, e3, e4, e5, e6, e7, e8, e9, e10, e11, e12, e13, e14, e15, e16⟩ := h1
  obtain ⟨f1, f2, f3, f4, f5, f6, f7, f8, f9, f10, f11, f12, f13, f14, f15, f16⟩ := h2
  exact ⟨e1.trans f1, e2.trans f2, e3.trans f3, e4.trans f4, e5.trans f5,
    e6.trans f6, e7.trans f7, e8.trans f8, e9.trans f9, e10.trans f10,
    e11.trans f11, e12.trans f12, e13.trans f13, e14.trans f14,
    e15.trans f15, e16.trans f16⟩

theorem pipesEnd_endishCore (l : List PipeRec) (s : MState) :
    endishCore (pipesEnd s l).1 s := by
  induction l generalizing s with
  | nil => exact endishCore_refl s
  | cons p ps ih =>
    cases hp : p.proxy with
    | true =>
      simp only [pipesEnd, hp, if_true]
      exact endishCore_trans (ih _) (by simp [endishCore])
    | false =>
      simp only [pipesEnd, hp, if_false]
      exact ih s

theorem pipesEnd_closed (l : List PipeRec) (s : MState) :
    (pipesEnd s l).1.closed = s.closed := by
  induction l generalizing s with
  | nil => rfl
  | cons p ps ih =>
    cases hp : p.proxy with
    | true => simp only [pipesEnd, hp, if_true]; rw [ih]
    | false => simp only [pipesEnd, hp, if_false]; exact ih s

theorem pipesEnd_trace (l : List PipeRec) (s : MState) :
    (pipesEnd s l).2 =
      (l.filter (·.optsEnd)).map (fun p => TEv.destEnd p.destId) := by
  induction l generalizing s with
  | nil => rfl
  | cons p ps ih =>
    cases hp : p.proxy with
    | true =>
      cases he : p.optsEnd <;>
        simp [pipesEnd, hp, he, List.filter_cons, ih]
    | false =>
      cases he : p.optsEnd <;>
        simp [pipesEnd, hp, he, List.filter_cons, ih]

theorem pipesEnd_trace_noEndish (l : List PipeRec) (s : MState) :
    (pipesEnd s l).2.filter isEndishTE = [] := by
  rw [pipesEnd_trace]
  induction (l.filter (·.optsEnd)) with
  | nil => rfl
  | cons p ps ih => simp [isEndishTE, ih]

theorem pipesEnd_trace_noData (l : List PipeRec) (s : MState) :
    dataPayloads (pipesEnd s l).2 = [] := by
  rw [pipesEnd_trace]
  induction (l.filter (·.optsEnd)) with
  | nil => rfl
  | cons p ps ih => simp only [List.map_cons, dataPayloads, List.filterMap_cons] at ih ⊢; exact ih

theorem emitEnd2_endishCore (s : MState) : endishCore (emitEnd2 s).1 s := by
  refine endishCore_trans ?_ (pipesEnd_endishCore s.pipes s)
  simp [emitEnd2, endishCore]

theorem emitEnd2_closed (s : MState) : (emitEnd2 s).1.closed = s.closed := by
  simp only [emitEnd2]
  exact pipesEnd_closed s.pipes s

theorem emitEndF_endishCore (s : MState) : endishCore (emitEndF s).1 s := by
  cases h : s.emittedEnd with
  | true => simp [emitEndF, h, endishCore_refl]
  | false =>
    cases ha : s.asyncF with
    | true => simp [emitEndF, h, ha, endishCore]
    | false =>
      refine endishCore_trans ?_
        (show endishCore { s with emittedEnd := true, readable := false } s by
          simp [endishCore])
      simpa [emitEndF, h, ha] using
        emitEnd2_endishCore { s with emittedEnd := true, readable := false }

theorem emitEndF_closed (s : MState) : (emitEndF s).1.closed = s.closed := by
  cases h : s.emittedEnd with
  | true => simp [emitEndF, h]
  | false =>
    cases ha : s.asyncF with
    | true => simp [emitEndF, h, ha]
    | false =>
      simp only [emitEndF, h, ha, Bool.false_eq_true, if_false]
      exact emitEnd2_closed _

theorem emitPrefinishF_closed (s : MState) :
    (emitPrefinishF s).1.closed = s.closed := by
  simp [emitPrefinishF]

theorem emitFinishF_closed (s : MState) :
    (emitFinishF s).1.closed = s.closed := by
  simp [emitFinishF]

theorem maybeEmitEnd_noFire (s : MState) (h : fireGuardB s = false) :
    maybeEmitEnd s = (s, []) := by
  simp [maybeEmitEnd, h]

theorem dataPayloads_append (a b : List TEv) :
    dataPayloads (a ++ b) = dataPayloads a ++ dataPayloads b := by
  simp [dataPayloads, List.filterMap_append]

theorem emitPrefinishF_trace (s : MState) :
    (emitPrefinishF s).2.1 = [TEv.prefinishEv] := rfl

theorem emitFinishF_trace (s : MState) :
    (emitFinishF s).2.1 = [TEv.finishEv] := rfl

theorem emitEndF_noData (s : MState) :
    dataPayloads (emitEndF s).2.1 = [] := by
  cases h : s.emittedEnd with
  | true => simp [emitEndF, h, dataPayloads]
  | false =>
    cases ha : s.asyncF with
    | true => simp [emitEndF, h, ha, dataPayloads]
    | false =>
      simp only [emitEndF, h, ha, Bool.false_eq_true, if_false, emitEnd2]
      rw [pipesEnd_trace, dataPayloads_append]
      have h1 : dataPayloads
          ((List.filter (·.optsEnd)
            ({ s with emittedEnd := true, readable := false } : MState).pipes).map
              fun p => TEv.destEnd p.destId) = [] := by
        induction (List.filter (·.optsEnd)
            ({ s with emittedEnd := true, readable := false } : MState).pipes) with
        | nil => rfl
        | cons p ps ih => simp only [List.map_cons, dataPayloads, List.filterMap_cons] at ih ⊢; exact ih
      rw [h1]
      simp [dataPayloads]

theorem emitCloseF_noData (s : MState) :
    dataPayloads (emitCloseF s).2.1 = [] := by
  simp only [emitCloseF]
  split <;> simp [dataPayloads]

/-- The endish check never emits data: its trace consists of destination
actions and endish events only. -/
theorem maybeEmitEnd_noData (s : MState) :
    dataPayloads (maybeEmitEnd s).2 = [] := by
  cases hg : fireGuardB s with
  | false => simp [maybeEmitEnd, hg, dataPayloads]
  | true =>
    simp only [maybeEmitEnd, hg, if_true]
    split
    · simp only [dataPayloads_append, emitEndF_noData, emitCloseF_noData,
        emitPrefinishF_trace, emitFinishF_trace]
      simp [dataPayloads]
    · simp only [dataPayloads_append, emitEndF_noData,
        emitPrefinishF_trace, emitFinishF_trace]
      simp [dataPayloads]

/-! ### Pipe-list preservation through the resume path -/

theorem bufferShift_pipes (s : MState) : (bufferShift s).1.pipes = s.pipes := by
  rcases hb : s.buffer with _ | ⟨c, rest⟩
  · simp [bufferShift, hb]
  · simp only [bufferShift, hb]
    split <;> simp

theorem flushLoop_pipes (fuel : Nat) (s : MState) :
    (flushLoop fuel s).1.pipes = s.pipes := by
  induction fuel generalizing s with
  | zero => rfl
  | succ n ih =>
    rcases hb : s.buffer with _ | ⟨c, rest⟩
    · simp [flushLoop, hb]
    · simp only [flushLoop, hb]
      have h1 := bufferShift_pipes s
      have h2 := (emit_core (bufferShift s).1 (.data (bufferShift s).2)).2.2.2.2.1
      split
      · rw [ih]
        simp only [flushChunkF]
        rw [h2, h1]
      · simp only [flushChunkF]
        rw [h2, h1]

theorem flush_pipes (s : MState) (noDrain : Bool) :
    (flush s noDrain).1.pipes = s.pipes := by
  simp only [flush]
  split
  · have h1 := (emit_core (flushLoop s.buffer.length s).1 .drain).2.2.2.2.1
    rw [h1, flushLoop_pipes]
  · exact flushLoop_pipes _ s

theorem maybeEmitEnd_pipes (s : MState) : (maybeEmitEnd s).1.pipes = s.pipes :=
  (maybeEmitEnd_core s).2.2.2.2.1

theorem emit_pipes (s : MState) (ev : EvName) : (emit s ev).1.pipes = s.pipes :=
  (emit_core s ev).2.2.2.2.1

theorem resumeI_pipes (s : MState) : (resumeI s).1.pipes = s.pipes := by
  cases hd : s.destroyed with
  | true => simp [resumeI, hd]
  | false =>
    simp only [resumeI, hd, Bool.false_eq_true, if_false]
    split
    · split
      · rw [flush_pipes, emit_pipes]
      · split
        · rw [maybeEmitEnd_pipes, emit_pipes]
        · rw [emit_pipes, emit_pipes]
    · split
      · rw [flush_pipes, emit_pipes]
      · split
        · rw [maybeEmitEnd_pipes, emit_pipes]
        · rw [emit_pipes, emit_pipes]

/-! ### Trace shape of an error emission -/

/-- Every entry of the endish-check trace is an endish event or a
destination-end action. -/
theorem emitEndF_trace_shape (s : MState) :
    ∀ t ∈ (emitEndF s).2.1, t = TEv.endEv ∨ ∃ d, t = TEv.destEnd d := by
  cases h : s.emittedEnd with
  | true => simp [emitEndF, h]
  | false =>
    cases ha : s.asyncF with
    | true => simp [emitEndF, h, ha]
    | false =>
      simp only [emitEndF, h, ha, Bool.false_eq_true, if_false, emitEnd2]
      rw [pipesEnd_trace]
      intro t ht
      simp only [List.mem_append, List.mem_map, List.mem_singleton] at ht
      rcases ht with ⟨p, _, hp⟩ | ht
      · exact Or.inr ⟨p.destId, hp.symm⟩
      · exact Or.inl ht

theorem emitCloseF_trace_shape (s : MState) :
    ∀ t ∈ (emitCloseF s).2.1, t = TEv.closeEv := by
  simp only [emitCloseF]
  split <;> simp

theorem maybeEmitEnd_trace_shape (s : MState) :
    ∀ t ∈ (maybeEmitEnd s).2,
      t = TEv.endEv ∨ t = TEv.prefinishEv ∨ t = TEv.finishEv ∨
        t = TEv.closeEv ∨ ∃ d, t = TEv.destEnd d := by
  cases hg : fireGuardB s with
  | false => simp [maybeEmitEnd_noFire s hg]
  | true =>
    simp only [maybeEmitEnd, hg, if_true]
    intro t ht
    split at ht
    · simp only [List.mem_append, emitPrefinishF_trace, emitFinishF_trace,
        List.mem_singleton] at ht
      rcases ht with ((ht | ht) | ht) | ht
      · rcases emitEndF_trace_shape _ t ht with h | ⟨d, h⟩
        · exact Or.inl h
        · exact Or.inr (Or.inr (Or.inr (Or.inr ⟨d, h⟩)))
      · exact Or.inr (Or.inl ht)
      · exact Or.inr (Or.inr (Or.inl ht))
      · exact Or.inr (Or.inr (Or.inr (Or.inl (emitCloseF_trace_shape _ t ht))))
    · simp only [List.mem_append, emitPrefinishF_trace, emitFinishF_trace,
        List.mem_singleton, List.append_nil] at ht
      rcases ht with (ht | ht) | ht
      · rcases emitEndF_trace_shape _ t ht with h | ⟨d, h⟩
        · exact Or.inl h
        · exact Or.inr (Or.inr (Or.inr (Or.inr ⟨d, h⟩)))
      · exact Or.inr (Or.inl ht)
      · exact Or.inr (Or.inr (Or.inl ht))

theorem maybeEmitEnd_no_errorEv (s : MState) (e : Err) (ls : List EH) :
    TEv.errorEv e ls ∉ (maybeEmitEnd s).2 := by
  intro hm
  rcases maybeEmitEnd_trace_shape s _ hm with h | h | h | h | ⟨d, h⟩ <;>
    exact absurd h (by simp)

/-- The exact trace of an error emission: the internal channel entry, the
conditional public entry, then whatever the endish check emits. -/
theorem emitErrorF_trace (s : MState) (e : Err) :
    (emitErrorF s e).2.1 =
      TEv.errorI e ::
        ((if (!s.hasSignal || !s.ee.errorLs.isEmpty) = true
          then [TEv.errorEv e s.ee.errorLs] else []) ++
          (maybeEmitEnd { s with emittedError := some e }).2) := by
  simp only [emitErrorF]
  split <;> simp_all

theorem emitErrorF_noData (s : MState) (e : Err) :
    dataPayloads (emitErrorF s e).2.1 = [] := by
  rw [emitErrorF_trace]
  by_cases hc : (!s.hasSignal || !s.ee.errorLs.isEmpty) = true <;>
    simp [hc, dataPayloads, List.filterMap_append, List.filterMap_cons] <;>
    have := maybeEmitEnd_noData { s with emittedError := some e } <;>
    simpa [dataPayloads] using this

theorem emitErrorF_head (s : MState) (e : Err) :
    (emitErrorF s e).2.1.head? = some (TEv.errorI e) := by
  rw [emitErrorF_trace]
  rfl

theorem emitErrorF_public_iff (s : MState) (e : Err) :
    TEv.errorEv e s.ee.errorLs ∈ (emitErrorF s e).2.1 ↔
      (s.hasSignal = false ∨ s.ee.errorLs ≠ []) := by
  have hbool : ((!s.hasSignal || !s.ee.errorLs.isEmpty) = true) ↔
      (s.hasSignal = false ∨ s.ee.errorLs ≠ []) := by
    simp [List.isEmpty_iff]
  rw [emitErrorF_trace]
  by_cases hc : (!s.hasSignal || !s.ee.errorLs.isEmpty) = true
  · simp only [hc, if_true]
    constructor
    · intro _
      exact hbool.mp hc
    · intro _
      simp
  · simp only [hc, if_false]
    constructor
    · intro hm
      simp only [List.mem_cons, List.nil_append] at hm
      rcases hm with hm | hm
      · exact absurd hm (by simp)
      · exact absurd hm (maybeEmitEnd_no_errorEv _ e s.ee.errorLs)
    · intro h
      exact absurd (hbool.mpr h) hc

theorem emitPrefinishF_endishCore (s : MState) :
    endishCore (emitPrefinishF s).1 s := by
  simp [emitPrefinishF, endishCore]

theorem emitFinishF_endishCore (s : MState) :
    endishCore (emitFinishF s).1 s := by
  simp [emitFinishF, endishCore]

theorem emitCloseF_endishCore (s : MState) :
    endishCore (emitCloseF s).1 s := by
  simp only [emitCloseF]
  split <;> simp [endishCore]

theorem maybeEmitEnd_endishCore (s : MState) :
    endishCore (maybeEmitEnd s).1 s := by
  cases hg : fireGuardB s with
  | false => simp [maybeEmitEnd, hg, endishCore_refl]
  | true =>
    simp only [maybeEmitEnd, hg, if_true]
    have c1 := emitEndF_endishCore { s with emittingEnd := true }
    have c2 := emitPrefinishF_endishCore (emitEndF { s with emittingEnd := true }).1
    have c3 := emitFinishF_endishCore
      (emitPrefinishF (emitEndF { s with emittingEnd := true }).1).1
    have c123 : endishCore
        (emitFinishF (emitPrefinishF (emitEndF { s with emittingEnd := true }).1).1).1 s :=
      endishCore_trans c3 (endishCore_trans c2
        (endishCore_trans c1 (by simp [endishCore])))
    split
    · exact endishCore_trans (by simp [endishCore])
        (endishCore_trans (emitCloseF_endishCore _) c123)
    · exact endishCore_trans (by simp [endishCore]) c123

theorem maybeEmitEnd_emittedError (s : MState) :
    (maybeEmitEnd s).1.emittedError = s.emittedError :=
  (maybeEmitEnd_endishCore s).2.2.2.2.2.2.2.2.1

/-- The `error` branch of the dispatcher is taken for every stream,
destroyed or not (src 1056-1062, 1078). -/
theorem emit_error_eq (s : MState) (e : Err) :
    emit s (.error e) = emitErrorF s e := by
  simp [emit, allowedWhenDestroyed]

theorem emitErrorF_emittedError (s : MState) (e : Err) :
    (emitErrorF s e).1.emittedError = some e := by
  simp only [emitErrorF]
  rw [maybeEmitEnd_emittedError]

theorem emitErrorF_asyncF (s : MState) (e : Err) :
    (emitErrorF s e).1.asyncF = s.asyncF :=
  (emitErrorF_core s e).2.2.2.2.2.1

/-- The destroyed branch of `write` (src 545-554) reduces to an error
emission returning true. -/
theorem write_destroyed (s : MState) (c : Item) (hd : s.destroyed = true)
    (hab : s.aborted = false) (he : s.eof = false) :
    write s c =
      ((emitErrorF s .streamDestroyed).1,
        (emitErrorF s .streamDestroyed).2.1, .ok true) := by
  simp [write, hab, he, hd, emit_error_eq]

/-! ### The fire path of the endish check -/

theorem pipesEnd_emittedEnd (l : List PipeRec) (s : MState) :
    (pipesEnd s l).1.emittedEnd = s.emittedEnd := by
  induction l generalizing s with
  | nil => rfl
  | cons p ps ih =>
    cases hp : p.proxy with
    | true => simp only [pipesEnd, hp, if_true]; rw [ih]
    | false => simp only [pipesEnd, hp, if_false]; exact ih s

theorem emitEnd2_emittedEnd (s : MState) :
    (emitEnd2 s).1.emittedEnd = s.emittedEnd := by
  simp only [emitEnd2]
  exact pipesEnd_emittedEnd s.pipes s

/-- [EMITEND] latches emittedEnd in both the sync and the deferred
branch. -/
theorem emitEndF_emittedEnd (s : MState) (h : s.emittedEnd = false) :
    (emitEndF s).1.emittedEnd = true := by
  simp only [emitEndF]
  rw [if_neg (by simp [h])]
  split
  · rfl
  · rw [emitEnd2_emittedEnd]

theorem emitPrefinishF_emittedEnd (s : MState) :
    (emitPrefinishF s).1.emittedEnd = s.emittedEnd := by
  simp [emitPrefinishF]

theorem emitFinishF_emittedEnd (s : MState) :
    (emitFinishF s).1.emittedEnd = s.emittedEnd := by
  simp [emitFinishF]

/-- The trace of a sync [EMITEND] that actually fires: the destination-end
actions followed by the `end` emission. -/
theorem emitEndF_trace_sync (s : MState) (h : s.emittedEnd = false)
    (ha : s.asyncF = false) :
    (emitEndF s).2.1 =
      (pipesEnd { s with emittedEnd := true, readable := false }
        ({ s with emittedEnd := true, readable := false } : MState).pipes).2 ++
        [TEv.endEv] := by
  simp only [emitEndF]
  rw [if_neg (by simp [h])]
  rw [if_neg (show ¬(({ s with emittedEnd := true, readable := false } : MState).asyncF = true) by
    simp [ha])]
  rfl

theorem emitEndF_filter_endish (s : MState) (h : s.emittedEnd = false)
    (ha : s.asyncF = false) :
    (emitEndF s).2.1.filter isEndishTE = [TEv.endEv] := by
  rw [emitEndF_trace_sync s h ha, List.filter_append, pipesEnd_trace_noEndish]
  rfl

theorem emitEndF_trace_ne_nil (s : MState) (h : s.emittedEnd = false)
    (ha : s.asyncF = false) :
    (emitEndF s).2.1 ≠ [] := by
  rw [emitEndF_trace_sync s h ha]
  simp

/-! ### Claim theorems -/

theorem fireGuardB_false_of_eof (s : MState) (h : s.eof = false) :
    fireGuardB s = false := by
  simp [fireGuardB, h]

theorem pipesWrite_accept (l : List PipeRec) (s : MState) (c : Item)
    (h : ∀ p ∈ l, p.accepts = true) :
    pipesWrite s l c = (s, l.map fun p => TEv.destWrite p.destId c) := by
  induction l generalizing s with
  | nil => rfl
  | cons p ps ih =>
    have hp : p.accepts = true := h p (by simp)
    simp only [pipesWrite, hp, if_true, List.map_cons]
    rw [ih s (fun q hq => h q (by simp [hq]))]

theorem emit_data_ready (s : MState) (c : Item) (h : c1Ready s)
    (hc : s.objectMode = true ∨ c ≠ []) :
    emit s (.data c) =
      (s, (s.pipes.map fun p => TEv.destWrite p.destId c) ++ [TEv.dataEv c],
        !s.ee.dataLs.isEmpty) := by
  obtain ⟨hf, hdis, hdes, hab, heof, hee, heing, hbuf, hbl, hasy, hacc⟩ := h
  simp only [emit]
  rw [if_neg (show ¬((s.destroyed && !allowedWhenDestroyed (.data c)) = true) by
    simp [hdes])]
  rw [if_neg (show ¬((!s.objectMode && c.isEmpty) = true) by
    rcases hc with hc | hc <;> simp [hc])]
  rw [if_neg (show ¬(s.asyncF = true) by simp [hasy])]
  simp only [emitDataF]
  rw [pipesWrite_accept s.pipes s c hacc]
  rw [if_neg (show ¬(((s, s.pipes.map fun p =>
    TEv.destWrite p.destId c) : MState × List TEv).1.discarded = true) by simp [hdis])]
  rw [maybeEmitEnd_noFire _ (fireGuardB_false_of_eof s heof)]
  simp

theorem write_ready (s : MState) (c : Item) (h : c1Ready s) :
    write s c = (s, writeTrC1 s c, .ok true) := by
  have h' := h
  obtain ⟨hf, hdis, hdes, hab, heof, hee, heing, hbuf, hbl, hasy, hacc⟩ := h'
  have htail : (s.objectMode = true ∨ c ≠ []) →
      writeTail s c =
        (s, (s.pipes.map fun p => TEv.destWrite p.destId c) ++ [TEv.dataEv c],
          .ok true) := by
    intro hc
    simp only [writeTail]
    simp [hbl, hf, emit_data_ready s c h hc]
  simp only [write]
  rw [if_neg (by simp [hab]), if_neg (by simp [heof]), if_neg (by simp [hdes])]
  by_cases ho : s.objectMode = true
  · rw [if_pos ho, htail (Or.inl ho)]
    simp [writeTrC1, ho]
  · rw [if_neg ho]
    simp only [Bool.not_eq_true] at ho
    by_cases hce : c.isEmpty = true
    · rw [if_pos hce]
      rw [if_neg (show ¬((s.bufferLength != 0) = true) by simp [hbl])]
      have hexp : c = [] := by simpa [List.isEmpty_iff] using hce
      simp [writeTrC1, ho, hexp, hf]
    · rw [if_neg hce]
      have hcne : c ≠ [] := by simpa [List.isEmpty_iff] using hce
      rw [htail (Or.inr hcne)]
      simp [writeTrC1, ho, hcne]

theorem runWrites_aux (s : MState) (h : c1Ready s) (ws : List Item)
    (acc : List TEv) :
    ws.foldl
      (fun (p : MState × List TEv) c =>
        let r := write p.1 c
        (r.1, p.2 ++ r.2.1))
      (s, acc) = (s, acc ++ (ws.map (writeTrC1 s)).flatten) := by
  induction ws generalizing acc with
  | nil => simp
  | cons c cs ih =>
    rw [List.foldl_cons]
    simp only [write_ready s c h]
    rw [ih (acc ++ writeTrC1 s c)]
    simp

theorem runWrites_ready (s : MState) (h : c1Ready s) (ws : List Item) :
    runWrites s ws = (s, (ws.map (writeTrC1 s)).flatten) := by
  have := runWrites_aux s h ws []
  simpa [runWrites] using this

theorem dataPayloads_destWrites (l : List PipeRec) (c : Item) :
    dataPayloads (l.map fun p => TEv.destWrite p.destId c) = [] := by
  induction l with
  | nil => rfl
  | cons p ps ih =>
    simp only [List.map_cons, dataPayloads, List.filterMap_cons] at ih ⊢
    exact ih

theorem dataPayloads_writeTr (s : MState) (c : Item) :
    dataPayloads (writeTrC1 s c) =
      (if s.objectMode = false ∧ c = [] then [] else [c]) := by
  simp only [writeTrC1]
  split
  · rfl
  · rw [dataPayloads_append, dataPayloads_destWrites]
    rfl

theorem dataPayloads_blocks (s : MState) (ws : List Item) :
    dataPayloads ((ws.map (writeTrC1 s)).flatten) =
      (if s.objectMode = true then ws else ws.filter (fun c => !c.isEmpty)) := by
  induction ws with
  | nil => cases s.objectMode <;> simp [dataPayloads]
  | cons c cs ih =>
    simp only [List.map_cons, List.flatten_cons, dataPayloads_append,
      dataPayloads_writeTr, ih]
    cases ho : s.objectMode with
    | true => simp
    | false =>
      by_cases hce : c = [] <;>
        simp [hce, List.filter_cons, List.isEmpty_iff]

theorem flatten_filter_nonempty (ws : List Item) :
    (ws.filter (fun c => !c.isEmpty)).flatten = ws.flatten := by
  induction ws with
  | nil => rfl
  | cons c cs ih =>
    by_cases hce : c.isEmpty = true
    · have hc : c = [] := by simpa [List.isEmpty_iff] using hce
      simp [List.filter_cons, hce, hc, ih]
    · simp [List.filter_cons, hce, ih]

theorem endS_ready (s : MState) (h : c1Ready s) :
    (endS s none).2.2 = none ∧ dataPayloads (endS s none).2.1 = [] := by
  obtain ⟨hf, hdis, hdes, hab, heof, hee, heing, hbuf, hbl, hasy, hacc⟩ := h
  simp only [endS]
  rw [if_pos (show ((({ s with eof := true, writable := false } : MState)).flowing ||
    !(({ s with eof := true, writable := false } : MState)).paused) = true by simp [hf])]
  exact ⟨by trivial, maybeEmitEnd_noData ({ s with eof := true, writable := false } : MState)⟩

/-- C1: on a stream with a consumer attached (a data listener or an
accepting pipe, so not discarded), writing W1..Wn and then calling `end()`
throws nothing and emits, as `data`, exactly the written items: the
sequence of data payloads is W1..Wn in object mode, and its concatenation
is the concatenation of the Wi in Bytes/Text mode (zero-length chunks
never enter the pipeline, src 607-611). -/
theorem c1_fifo_data (s : MState) (ws : List Item) (h : c1Ready s)
    (_hcons : 1 ≤ s.dataListeners ∨ s.pipes ≠ []) :
    (endS (runWrites s ws).1 none).2.2 = none ∧
    (s.objectMode = true →
      dataPayloads ((runWrites s ws).2 ++ (endS (runWrites s ws).1 none).2.1) = ws) ∧
    (s.objectMode = false →
      (dataPayloads
        ((runWrites s ws).2 ++ (endS (runWrites s ws).1 none).2.1)).flatten =
        ws.flatten) := by
  have hrw := runWrites_ready s h ws
  rw [hrw]
  have hend := endS_ready s h
  refine ⟨hend.1, ?_, ?_⟩
  · intro ho
    rw [dataPayloads_append, hend.2, dataPayloads_blocks, ho]
    simp
  · intro ho
    rw [dataPayloads_append, hend.2, dataPayloads_blocks, ho]
    simpa using flatten_filter_nonempty ws

/-- C1 (witness): a fresh Bytes stream with a data listener, two writes
and an empty write, then `end()`. -/
theorem c1_fifo_data_witness :
    (endS (runWrites (onE initB .dataC 0).1 [[1], [2], []]).1 none).2.2 = none ∧
    ((onE initB .dataC 0).1.objectMode = true →
      dataPayloads ((runWrites (onE initB .dataC 0).1 [[1], [2], []]).2 ++
        (endS (runWrites (onE initB .dataC 0).1 [[1], [2], []]).1 none).2.1) =
          [[1], [2], []]) ∧
    ((onE initB .dataC 0).1.objectMode = false →
      (dataPayloads ((runWrites (onE initB .dataC 0).1 [[1], [2], []]).2 ++
        (endS (runWrites (onE initB .dataC 0).1 [[1], [2], []]).1 none).2.1)).flatten =
          ([[1], [2], []] : List Item).flatten) :=
  c1_fifo_data (onE initB .dataC 0).1 [[1], [2], []] (by decide)
    (Or.inl (by decide))

/-- C3: [MAYBE_EMIT_END] fires the closing sequence iff the stream is not
already emitting end, has not emitted end, is not destroyed, has an empty
buffer and eof is set (src 1010-1016); whenever it fires, the endish
events appear in the emission trace in the fixed order `end`, `prefinish`,
`finish`, then `close` exactly when the closed flag was latched
(src 1017-1022). -/
theorem c3_endish_sequence (s : MState) (ha : s.asyncF = false) :
    ((maybeEmitEnd s).2 ≠ [] ↔ fireGuardB s = true) ∧
    (fireGuardB s = true →
      (maybeEmitEnd s).2.filter isEndishTE =
        [TEv.endEv, TEv.prefinishEv, TEv.finishEv] ++
          (if s.closed = true then [TEv.closeEv] else [])) := by
  cases hg : fireGuardB s with
  | false =>
    rw [maybeEmitEnd_noFire s hg]
    simp [hg]
  | true =>
    obtain ⟨h1, h2, h3, h4, h5⟩ : s.emittingEnd = false ∧ s.emittedEnd = false ∧
        s.destroyed = false ∧ s.buffer = [] ∧ s.eof = true := by
      have hx := hg
      simp only [fireGuardB, Bool.and_eq_true, Bool.not_eq_true',
        List.isEmpty_iff] at hx
      tauto
    simp only [maybeEmitEnd]
    rw [if_pos hg]
    have h2' : ({ s with emittingEnd := true } : MState).emittedEnd = false := h2
    have ha' : ({ s with emittingEnd := true } : MState).asyncF = false := ha
    have hne := emitEndF_trace_ne_nil ({ s with emittingEnd := true }) h2' ha'
    have ht1 := emitEndF_filter_endish ({ s with emittingEnd := true }) h2' ha'
    have hEE := emitEndF_emittedEnd ({ s with emittingEnd := true } : MState) h2'
    have hCl := emitEndF_closed ({ s with emittingEnd := true } : MState)
    have hr3c : (emitFinishF (emitPrefinishF
        (emitEndF { s with emittingEnd := true }).1).1).1.closed = s.closed := by
      rw [emitFinishF_closed, emitPrefinishF_closed, hCl]
    have hr3e : (emitFinishF (emitPrefinishF
        (emitEndF { s with emittingEnd := true }).1).1).1.emittedEnd = true := by
      rw [emitFinishF_emittedEnd, emitPrefinishF_emittedEnd, hEE]
    constructor
    · refine iff_of_true ?_ (by trivial)
      intro hnil
      simp only [List.append_eq_nil] at hnil
      exact hne hnil.1.1.1
    · intro _
      rw [List.filter_append, List.filter_append, List.filter_append, ht1, hr3c,
        emitPrefinishF_trace, emitFinishF_trace]
      by_cases hc : s.closed = true
      · have hclose : (emitCloseF (emitFinishF (emitPrefinishF
            (emitEndF { s with emittingEnd := true }).1).1).1).2.1 =
              [TEv.closeEv] := by
          simp only [emitCloseF]
          rw [if_neg (by simp [hr3e])]
        rw [if_pos hc, hclose]
        simp [isEndishTE, hc]
      · rw [if_neg hc]
        simp only [Bool.not_eq_true] at hc
        simp [isEndishTE, hc]

/-- C3 (witness): the endish check on a fresh stream that saw `end()` with
`closed` latched, and on one where the guard fails. -/
theorem c3_endish_sequence_witness :
    (((maybeEmitEnd { initB with eof := true, closed := true }).2 ≠ [] ↔
        fireGuardB { initB with eof := true, closed := true } = true) ∧
      (fireGuardB { initB with eof := true, closed := true } = true →
        (maybeEmitEnd { initB with eof := true, closed := true }).2.filter isEndishTE =
          [TEv.endEv, TEv.prefinishEv, TEv.finishEv] ++
            (if ({ initB with eof := true, closed := true } : MState).closed = true
              then [TEv.closeEv] else []))) :=
  c3_endish_sequence { initB with eof := true, closed := true } (by decide)

/-- C4 (counterexample): on a destroyed, non-aborted stream that was
constructed with an abort signal and has no error listeners, `write`
returns true but the public error event is absorbed (src 1081-1084): the
trace of the write contains no public error emission, contradicting the
claim that such a write emits an `error` event. -/
theorem c4_destroyed_write_counterexample :
    sigDestroyed.destroyed = true ∧ sigDestroyed.aborted = false ∧
    sigDestroyed.eof = false ∧
    (write sigDestroyed [1]).2.2 = .ok true ∧
    ((write sigDestroyed [1]).2.1.filter
      (fun t => match t with | TEv.errorEv _ _ => true | _ => false)) = [] :=
  ⟨by decide, by decide, by decide, rfl, by decide⟩

/-- C4 (amended): a write to a destroyed, non-aborted, non-ended stream
returns true, buffers nothing, emits no data, and latches the
ERR_STREAM_DESTROYED error on the internal channel; the public `error`
event is emitted (to the listeners registered at that moment) unless an
abort signal was supplied and there are zero error listeners. -/
theorem c4_destroyed_write_error (s : MState) (c : Item)
    (hd : s.destroyed = true) (hab : s.aborted = false) (he : s.eof = false) :
    (write s c).2.2 = .ok true ∧
    (write s c).1.buffer = s.buffer ∧
    (write s c).1.bufferLength = s.bufferLength ∧
    dataPayloads (write s c).2.1 = [] ∧
    (write s c).2.1.head? = some (TEv.errorI .streamDestroyed) ∧
    ((s.hasSignal = false ∨ s.ee.errorLs ≠ []) →
      TEv.errorEv .streamDestroyed s.ee.errorLs ∈ (write s c).2.1) := by
  rw [write_destroyed s c hd hab he]
  have hcore := emitErrorF_core s .streamDestroyed
  exact ⟨rfl, hcore.1, hcore.2.1, emitErrorF_noData s _, emitErrorF_head s _,
    fun h => (emitErrorF_public_iff s _).mpr h⟩

/-- C4 (witness for the amended theorem): concrete run on a signal-free
destroyed stream. -/
theorem c4_destroyed_write_error_witness :
    (write plainDestroyed [1]).2.2 = .ok true ∧
    (write plainDestroyed [1]).1.buffer = plainDestroyed.buffer ∧
    (write plainDestroyed [1]).1.bufferLength = plainDestroyed.bufferLength ∧
    dataPayloads (write plainDestroyed [1]).2.1 = [] ∧
    (write plainDestroyed [1]).2.1.head? = some (TEv.errorI .streamDestroyed) ∧
    ((plainDestroyed.hasSignal = false ∨ plainDestroyed.ee.errorLs ≠ []) →
      TEv.errorEv .streamDestroyed plainDestroyed.ee.errorLs ∈
        (write plainDestroyed [1]).2.1) :=
  c4_destroyed_write_error plainDestroyed [1] (by decide) (by decide) (by decide)

/-- C5: `read(n)` returns null on a destroyed stream for every n, and on a
live stream returns null leaving buffer and bufferLength untouched when
the buffer is empty, n is 0, or n exceeds bufferLength (src 655-666). -/
theorem c5_read_null_cases (s : MState) (n : Option Int) :
    (s.destroyed = true → read s n = (s, [], none)) ∧
    (s.destroyed = false →
      (s.bufferLength = 0 ∨ n = some 0 ∨ readNullArg n s.bufferLength = true) →
      (read s n).2.2 = none ∧ (read s n).1.buffer = s.buffer ∧
        (read s n).1.bufferLength = s.bufferLength) := by
  constructor
  · intro hd
    simp [read, hd]
  · intro hd hcond
    have hg : (({ s with discarded := false } : MState).bufferLength == 0 ||
        n == some 0 ||
        readNullArg n ({ s with discarded := false } : MState).bufferLength) = true := by
      rcases hcond with h | h | h <;> simp [h]
    simp only [read]
    rw [if_neg (show ¬(s.destroyed = true) by simp [hd]), if_pos hg]
    have hc := maybeEmitEnd_core { s with discarded := false }
    exact ⟨rfl, hc.1, hc.2.1⟩

/-- C5 (witness): `read(0)` on a fresh stream. -/
theorem c5_read_null_cases_witness :
    (read initB (some 0)).2.2 = none ∧ (read initB (some 0)).1.buffer = initB.buffer ∧
      (read initB (some 0)).1.bufferLength = initB.bufferLength :=
  (c5_read_null_cases initB (some 0)).2 (by decide) (Or.inr (Or.inl rfl))

/-- C6: `emit('error', e)` latches e as the last error and fires the
internal ERROR channel unconditionally (first trace entry); the public
`error` event reaches the registered listeners iff no abort signal was
supplied or some error listener exists; and an error handler subscribed
afterwards is invoked exactly once with the latched error (src 1078-1086,
933-937). -/
theorem c6_error_latch_and_suppression (s : MState) (e : Err) (h : Nat)
    (ha : s.asyncF = false) :
    (emit s (.error e)).1.emittedError = some e ∧
    (emit s (.error e)).2.1.head? = some (TEv.errorI e) ∧
    (TEv.errorEv e s.ee.errorLs ∈ (emit s (.error e)).2.1 ↔
      (s.hasSignal = false ∨ s.ee.errorLs ≠ [])) ∧
    (onE (emit s (.error e)).1 .errorC h).2 = [TEv.lateError (EH.userH h) e] := by
  rw [emit_error_eq]
  refine ⟨emitErrorF_emittedError s e, emitErrorF_head s e,
    emitErrorF_public_iff s e, ?_⟩
  have hE := emitErrorF_emittedError s e
  have hA := (emitErrorF_asyncF s e).trans ha
  simp [onE, hE, hA]

/-- C6 (witness): concrete emission and late subscription on a fresh
stream with a signal and no listeners (the suppressed case). -/
theorem c6_error_latch_and_suppression_witness :
    ((emit (freshStream ⟨false, false, false, true⟩) (.error (.user 9))).1.emittedError
        = some (.user 9) ∧
      (emit (freshStream ⟨false, false, false, true⟩) (.error (.user 9))).2.1.head?
        = some (TEv.errorI (.user 9)) ∧
      (TEv.errorEv (.user 9) (freshStream ⟨false, false, false, true⟩).ee.errorLs ∈
          (emit (freshStream ⟨false, false, false, true⟩) (.error (.user 9))).2.1 ↔
        ((freshStream ⟨false, false, false, true⟩).hasSignal = false ∨
          (freshStream ⟨false, false, false, true⟩).ee.errorLs ≠ [])) ∧
      (onE (emit (freshStream ⟨false, false, false, true⟩) (.error (.user 9))).1
          .errorC 4).2 = [TEv.lateError (EH.userH 4) (.user 9)]) :=
  c6_error_latch_and_suppression (freshStream ⟨false, false, false, true⟩)
    (.user 9) 4 (by decide)

/-- C7: `pipe(dest, opts)` on a live stream forces the end option to false
for the process stdout/stderr sink and otherwise defaults it to true
unless `end: false` was passed; on an already-ended stream no pipe record
is added and `dest.end()` is invoked iff the effective end option holds;
otherwise the normalized record is appended (src 838-864). -/
theorem c7_pipe_end_option (s : MState) (dest : Dest) (opts : POpts)
    (hd : s.destroyed = false) :
    (s.emittedEnd = true →
      (pipeF s dest opts).1.pipes = s.pipes ∧
      (pipeF s dest opts).2 =
        (if effEnd dest opts then [TEv.destEnd dest.destId] else [])) ∧
    (s.emittedEnd = false →
      (pipeF s dest opts).1.pipes = s.pipes ++
        [{ destId := dest.destId, accepts := dest.accepts,
           optsEnd := effEnd dest opts,
           proxy := opts.proxyErrors == some true }]) := by
  constructor
  · intro he
    simp only [pipeF]
    rw [if_neg (show ¬(s.destroyed = true) by simp [hd])]
    rw [if_pos (show ({ s with discarded := false } : MState).emittedEnd = true from he)]
    split <;> simp_all
  · intro he
    simp only [pipeF]
    rw [if_neg (show ¬(s.destroyed = true) by simp [hd])]
    rw [if_neg (show ¬(({ s with discarded := false } : MState).emittedEnd = true) by
      simp [he])]
    repeat' split
    all_goals simp [resumeI_pipes]

/-- C7 (witness): concrete pipe calls on a fresh stream. -/
theorem c7_pipe_end_option_witness :
    (initB.emittedEnd = true →
      (pipeF initB ⟨3, false, true⟩ ⟨none, none⟩).1.pipes = initB.pipes ∧
      (pipeF initB ⟨3, false, true⟩ ⟨none, none⟩).2 =
        (if effEnd ⟨3, false, true⟩ ⟨none, none⟩ then [TEv.destEnd 3] else [])) ∧
    (initB.emittedEnd = false →
      (pipeF initB ⟨3, false, true⟩ ⟨none, none⟩).1.pipes = initB.pipes ++
        [{ destId := 3, accepts := true,
           optsEnd := effEnd ⟨3, false, true⟩ ⟨none, none⟩,
           proxy := (⟨none, none⟩ : POpts).proxyErrors == some true }]) :=
  c7_pipe_end_option initB ⟨3, false, true⟩ ⟨none, none⟩ (by decide)

/-- C8: once destroyed, any event other than `error`, `close` or the
internal destroy marker is dropped: `emit` returns false with no handler
invoked and no state change; and a subsequent `write` never buffers data
nor emits any `data` event (src 1054-1062, 537-554). -/
theorem c8_destroyed_emit_silenced (s : MState) (ev : EvName) (c : Item)
    (hd : s.destroyed = true) :
    (allowedWhenDestroyed ev = false → emit s ev = (s, [], false)) ∧
    ((write s c).1.buffer = s.buffer ∧
      (write s c).1.bufferLength = s.bufferLength ∧
      dataPayloads (write s c).2.1 = []) := by
  constructor
  · intro hev
    simp [emit, hd, hev]
  · cases hab : s.aborted with
    | true => simp [write, hab, dataPayloads]
    | false =>
      cases he : s.eof with
      | true => simp [write, hab, he, dataPayloads]
      | false =>
        rw [write_destroyed s c hd hab he]
        have hcore := emitErrorF_core s .streamDestroyed
        exact ⟨hcore.1, hcore.2.1, emitErrorF_noData s _⟩

/-- C8 (witness): a user event emitted on, and a write to, a concrete
destroyed stream. -/
theorem c8_destroyed_emit_silenced_witness :
    (allowedWhenDestroyed (.userN 5) = false →
      emit plainDestroyed (.userN 5) = (plainDestroyed, [], false)) ∧
    ((write plainDestroyed [2]).1.buffer = plainDestroyed.buffer ∧
      (write plainDestroyed [2]).1.bufferLength = plainDestroyed.bufferLength ∧
      dataPayloads (write plainDestroyed [2]).2.1 = []) :=
  c8_destroyed_emit_silenced plainDestroyed (.userN 5) [2] (by decide)

/-- C9 (counterexample): subscribing a second readable handler while the
buffer is nonempty delivers the immediate `readable` emission to all
registered readable handlers, including the pre-existing handler 0 — not
only to the registering handler 1 (src 928-929 re-emits through
`super.emit`, which dispatches to every handler). -/
theorem c9_readable_counterexample :
    ((write (onE initB .readableC 0).1 [7]).1.bufferLength ≠ 0) ∧
    (onE (write (onE initB .readableC 0).1 [7]).1 .readableC 1).2 =
      [TEv.readableEv [0, 1]] ∧
    (onE (write (onE initB .readableC 0).1 [7]).1 .readableC 1).2 ≠
      [TEv.readableEv [1]] := by
  decide

/-- C9 (amended): subscribing a readable handler while `bufferLength` is
nonzero triggers exactly one immediate `readable` emission, delivered to
every currently registered readable handler — the registering handler
among them (src 928-929). -/
theorem c9_readable_broadcast (s : MState) (h : Nat)
    (hb : s.bufferLength ≠ 0) :
    (onE s .readableC h).2 = [TEv.readableEv (s.ee.readableLs ++ [h])] ∧
    h ∈ s.ee.readableLs ++ [h] := by
  have hbne : (s.bufferLength != 0) = true := by simpa using hb
  refine ⟨?_, by simp⟩
  simp [onE, eeAdd, hbne]

/-- C9 (witness for the amended theorem). -/
theorem c9_readable_broadcast_witness :
    (onE (write initB [7]).1 .readableC 1).2 =
      [TEv.readableEv ((write initB [7]).1.ee.readableLs ++ [1])] ∧
    1 ∈ (write initB [7]).1.ee.readableLs ++ [1] :=
  c9_readable_broadcast (write initB [7]).1 1 (by decide)

/-- C10: the async flag is monotone: after any sequence of assignments
through the async setter (src 490-492), the flag holds iff the stream was
constructed async or some assigned value was truthy; in particular
assigning false to an async stream leaves it async. -/
theorem c10_async_monotone (o : MOptions) (as : List Bool) :
    (as.foldl setAsyncP (freshStream o)).asyncF = (o.asyncO || as.any id) ∧
    (∀ s : MState, s.asyncF = true → (setAsyncP s false).asyncF = true) := by
  have key : ∀ (l : List Bool) (s : MState),
      (l.foldl setAsyncP s).asyncF = (s.asyncF || l.any id) := by
    intro l
    induction l with
    | nil => intro s; simp
    | cons b bs ih =>
      intro s
      simp [List.foldl_cons, ih, setAsyncP, Bool.or_assoc]
  refine ⟨?_, ?_⟩
  · rw [key]
    rfl
  · intro s hs
    simp [setAsyncP, hs]

/-- C10 (witness): a concrete assignment sequence, and the false
assignment on an async stream. -/
theorem c10_async_monotone_witness :
    (([false, true] : List Bool).foldl setAsyncP
        (freshStream ⟨false, false, false, false⟩)).asyncF =
      ((⟨false, false, false, false⟩ : MOptions).asyncO || [false, true].any id) ∧
    (setAsyncP { freshStream ⟨false, false, false, false⟩ with asyncF := true }
        false).asyncF = true := by
  refine ⟨(c10_async_monotone ⟨false, false, false, false⟩ [false, true]).1, ?_⟩
  exact (c10_async_monotone ⟨false, false, false, false⟩ []).2 _ (by decide)

/-! ### The bufferLength invariant (C2) -/

theorem sizeInv_of_emitCore {a b : MState} (hc : emitCore a b) (h : sizeInv b) :
    sizeInv a := by
  obtain ⟨h1, h2, h3, _⟩ := hc
  unfold sizeInv at h ⊢
  rw [h1, h2, h3]
  exact h

theorem emit_sizeInv (s : MState) (ev : EvName) (h : sizeInv s) :
    sizeInv (emit s ev).1 :=
  sizeInv_of_emitCore (emit_core s ev) h

theorem maybe_sizeInv (s : MState) (h : sizeInv s) :
    sizeInv (maybeEmitEnd s).1 :=
  sizeInv_of_emitCore (maybeEmitEnd_core s) h

theorem sumSizes_append (om : Bool) (a b : List Item) :
    sumSizes om (a ++ b) = sumSizes om a + sumSizes om b := by
  simp [sumSizes]

theorem bufferPush_sizeInv (s : MState) (c : Item) (h : sizeInv s) :
    sizeInv (bufferPush s c) := by
  unfold bufferPush
  unfold sizeInv at h ⊢
  cases ho : s.objectMode <;>
    simp [sumSizes_append, sumSizes, itemSize, ho] at h ⊢ <;> omega

theorem bufferShift_sizeInv (s : MState) (h : sizeInv s) :
    sizeInv (bufferShift s).1 := by
  rcases hb : s.buffer with _ | ⟨c, rest⟩
  · simp only [bufferShift, hb]
    exact h
  · simp only [bufferShift, hb]
    unfold sizeInv at h ⊢
    rw [hb] at h
    cases ho : s.objectMode <;>
      simp [sumSizes, itemSize, ho] at h ⊢ <;> omega

theorem flushLoop_sizeInv (fuel : Nat) (s : MState) (h : sizeInv s) :
    sizeInv (flushLoop fuel s).1 := by
  induction fuel generalizing s with
  | zero => exact h
  | succ n ih =>
    rcases hb : s.buffer with _ | ⟨c, rest⟩
    · simp only [flushLoop, hb]
      exact h
    · simp only [flushLoop, hb]
      have h1 : sizeInv (bufferShift s).1 := bufferShift_sizeInv s h
      have h2 : sizeInv (flushChunkF (bufferShift s).1 (bufferShift s).2).1 :=
        emit_sizeInv _ _ h1
      split
      · exact ih _ h2
      · exact h2

theorem flush_sizeInv (s : MState) (noDrain : Bool) (h : sizeInv s) :
    sizeInv (flush s noDrain).1 := by
  simp only [flush]
  split
  · exact emit_sizeInv _ _ (flushLoop_sizeInv _ s h)
  · exact flushLoop_sizeInv _ s h

theorem writeTail_sizeInv (s : MState) (c : Item) (h : sizeInv s) :
    sizeInv (writeTail s c).1 := by
  simp only [writeTail]
  repeat' split
  all_goals repeat' first
    | exact h
    | apply emit_sizeInv
    | apply flush_sizeInv
    | apply bufferPush_sizeInv

theorem write_sizeInv (s : MState) (c : Item) (h : sizeInv s) :
    sizeInv (write s c).1 := by
  simp only [write]
  repeat' split
  all_goals repeat' first
    | exact h
    | apply emit_sizeInv
    | apply writeTail_sizeInv

theorem sumSizes_flatten (l : List Item) :
    sumSizes false l = (l.flatten.length : Int) := by
  induction l with
  | nil => simp [sumSizes]
  | cons c cs ih => simp [sumSizes, itemSize] at ih ⊢; omega

theorem readI_sizeInv (s : MState) (nn : Option Int) (chunk : Item)
    (h : sizeInv (readSplit s nn chunk).1) : sizeInv (readI s nn chunk).1 := by
  simp only [readI]
  repeat' split
  all_goals repeat' first
    | exact h
    | apply emit_sizeInv

theorem readSplit_obj_sizeInv (s : MState) (nn : Option Int) (chunk : Item)
    (ho : s.objectMode = true) (h : sizeInv s) :
    sizeInv (readSplit s nn chunk).1 := by
  simp only [readSplit, ho, if_pos]
  exact bufferShift_sizeInv s h

theorem readSplit_single_sizeInv (s : MState) (k : Int) (c0 : Item)
    (ho : s.objectMode = false) (h : sizeInv s) (hbuf : s.buffer = [c0])
    (hk0 : 0 ≤ k) (hkb : k ≤ s.bufferLength) :
    sizeInv (readSplit s (some k) c0).1 := by
  have hlen : (c0.length : Int) = s.bufferLength := by
    unfold sizeInv at h
    rw [hbuf] at h
    simp [sumSizes, itemSize, ho] at h
    omega
  simp only [readSplit, ho]
  rw [if_neg (by simp [ho])]
  by_cases hke : k = (c0.length : Int)
  · rw [if_pos hke]
    exact bufferShift_sizeInv s h
  · rw [if_neg hke]
    unfold sizeInv
    simp only [ho, hbuf]
    have hidx : jsIdx c0.length k = k.toNat := by
      unfold jsIdx
      rw [if_neg (by omega)]
      have : k.toNat ≤ c0.length := by omega
      omega
    simp only [jsSliceFrom, hidx, hbuf]
    simp [sumSizes, itemSize, ho]
    omega

theorem coalesceStep_facts (t : MState) (hom : t.objectMode = false)
    (h : sizeInv t) (hbufne : t.buffer ≠ []) :
    sizeInv (coalesceStep t) ∧
    (coalesceStep t).buffer = [(coalesceStep t).buffer.headD []] ∧
    (((coalesceStep t).buffer.headD []).length : Int) = t.bufferLength ∧
    (coalesceStep t).objectMode = false ∧
    (coalesceStep t).bufferLength = t.bufferLength := by
  have hflat : (t.buffer.flatten.length : Int) = t.bufferLength := by
    have h' : t.bufferLength = sumSizes t.objectMode t.buffer := h
    rw [hom, sumSizes_flatten] at h'
    omega
  unfold coalesceStep
  by_cases hlen2 : (t.buffer.length > 1 && !t.objectMode) = true
  · rw [if_pos hlen2]
    have hitem : (if t.hasEncoding then t.buffer.flatten
        else jsBufferConcat t.buffer t.bufferLength) = t.buffer.flatten := by
      split
      · rfl
      · unfold jsBufferConcat
        have ht : t.bufferLength.toNat = t.buffer.flatten.length := by omega
        rw [ht]
        simp
    rw [hitem]
    refine ⟨?_, by simp, by simpa using hflat, hom, rfl⟩
    show t.bufferLength = sumSizes t.objectMode [t.buffer.flatten]
    rw [hom]
    simp only [sumSizes, itemSize, List.map_cons, List.map_nil,
      List.sum_cons, List.sum_nil, Bool.false_eq_true, if_false]
    omega
  · rw [if_neg hlen2]
    rcases hb : t.buffer with _ | ⟨c0, rest⟩
    · exact absurd hb hbufne
    · have hr : rest = [] := by
        rcases rest with _ | ⟨d, ds⟩
        · rfl
        · exfalso
          apply hlen2
          simp [hb, hom]
      subst hr
      refine ⟨h, by simp [hb], ?_, hom, rfl⟩
      have h' : t.bufferLength = sumSizes t.objectMode t.buffer := h
      rw [hb, hom] at h'
      simp only [sumSizes, itemSize, List.map_cons, List.map_nil,
        List.sum_cons, List.sum_nil, Bool.false_eq_true, if_false] at h'
      simp only [List.headD_cons]
      omega

theorem read_sizeInv (s : MState) (n : Option Int) (h : sizeInv s)
    (hn : readArgOkB (.rd n) = true) : sizeInv (read s n).1 := by
  by_cases hd : s.destroyed = true
  · simp only [read]
    rw [if_pos hd]
    exact h
  · simp only [read]
    rw [if_neg hd]
    have hs0 : sizeInv ({ s with discarded := false } : MState) := h
    by_cases hg : (({ s with discarded := false } : MState).bufferLength == 0 ||
        n == some 0 ||
        readNullArg n ({ s with discarded := false } : MState).bufferLength) = true
    · rw [if_pos hg]
      exact maybe_sizeInv _ hs0
    · rw [if_neg hg]
      apply maybe_sizeInv
      apply readI_sizeInv
      simp only [Bool.or_eq_true, not_or, bne_iff_ne] at hg
      obtain ⟨⟨hbl, hn0⟩, hnar⟩ := hg
      have hblne : s.bufferLength ≠ 0 := by
        intro hx
        exact hbl (by simp [hx])
      by_cases hom : ({ s with discarded := false } : MState).objectMode = true
      · have hom2 : s.objectMode = true := hom
        have hco : coalesceStep ({ s with discarded := false } : MState) =
            ({ s with discarded := false } : MState) := by
          unfold coalesceStep
          rw [if_neg (by simp [hom2])]
        rw [hco]
        exact readSplit_obj_sizeInv _ _ _ hom hs0
      · rw [Bool.not_eq_true] at hom
        have hom2 : s.objectMode = false := hom
        have hbufne : ({ s with discarded := false } : MState).buffer ≠ [] := by
          intro hx
          apply hblne
          unfold sizeInv at h
          have : sumSizes s.objectMode s.buffer = 0 := by
            have hb' : s.buffer = [] := hx
            rw [hb']
            simp [sumSizes]
          omega
        obtain ⟨hi1, hi2, hi3, hi4, hi5⟩ :=
          coalesceStep_facts ({ s with discarded := false } : MState) hom hs0 hbufne
        rcases hn' : n with _ | k
        · rw [if_neg (show ¬((({ s with discarded := false } : MState).objectMode) = true)
            by simp [hom2])]
          rw [show (match (none : Option Int) with
            | some k => if k = 0 then none else some k
            | none => (none : Option Int)) = none from rfl]
          simp only [readSplit, hi4, Bool.false_eq_true, if_false]
          exact bufferShift_sizeInv _ hi1
        · have hk0 : (0 : Int) ≤ k := by
            simp [readArgOkB, hn'] at hn
            exact hn
          have hkne : k ≠ 0 := by
            intro hx
            apply hn0
            simp [hn', hx]
          have hkle : k ≤ s.bufferLength := by
            rw [hn'] at hnar
            simp [readNullArg, hkne] at hnar
            exact hnar
          rw [if_neg (show ¬((({ s with discarded := false } : MState).objectMode) = true)
            by simp [hom2])]
          rw [show (match (some k : Option Int) with
            | some j => if j = 0 then none else some j
            | none => (none : Option Int)) = some k by simp [hkne]]
          have hbrid : ({ s with discarded := false } : MState).bufferLength
              = s.bufferLength := rfl
          exact readSplit_single_sizeInv _ k _ hi4 hi1 hi2 hk0 (by omega)

theorem endS_sizeInv (s : MState) (chunk : Option Item) (h : sizeInv s) :
    sizeInv (endS s chunk).1 := by
  simp only [endS]
  cases chunk with
  | none =>
    split
    · exact h
    · split
      · exact maybe_sizeInv ({ s with eof := true, writable := false } : MState) h
      · exact h
  | some c =>
    have hw := write_sizeInv s c h
    rcases hres : (write s c).2.2 with e | b <;> simp only [hres]
    · exact hw
    · split
      · exact maybe_sizeInv _ hw
      · exact hw

theorem resumeI_sizeInv (s : MState) (h : sizeInv s) :
    sizeInv (resumeI s).1 := by
  simp only [resumeI]
  repeat' split
  all_goals repeat' first
    | exact h
    | apply emit_sizeInv
    | apply flush_sizeInv
    | apply maybe_sizeInv

theorem destroyF_sizeInv (s : MState) (er : Option Err) (h : sizeInv s) :
    sizeInv (destroyF s er).1 := by
  have hz : sizeInv
      ({ s with destroyed := true, discarded := true, buffer := [], bufferLength := 0 } :
        MState) := by
    unfold sizeInv
    simp [sumSizes]
  by_cases hd : s.destroyed = true
  · simp only [destroyF]
    rw [if_pos hd]
    cases er with
    | some e => exact emit_sizeInv _ _ h
    | none => exact emit_sizeInv _ _ h
  · simp only [destroyF]
    rw [if_neg hd]
    cases er with
    | some e => exact emit_sizeInv _ _ hz
    | none => exact emit_sizeInv _ _ hz

theorem runOp_sizeInv (s : MState) (op : Op) (h : sizeInv s)
    (hok : readArgOkB op = true) : sizeInv (runOp s op) := by
  cases op with
  | wr c => exact write_sizeInv s c h
  | rd n => exact read_sizeInv s n h hok
  | endO c => exact endS_sizeInv s c h
  | resumeO => exact resumeI_sizeInv s h
  | pauseO => exact h
  | destroyO e => exact destroyF_sizeInv s e h

/-- C2 (counterexample): from a fresh Bytes stream, `write([5, 6])` then
`read(-1)` leaves `bufferLength = 3` while the buffer holds one item of
length 1: the negative argument reaches the split path of [READ]
(src 697-701), where `bufferLength -= n` increases the count and
`subarray` interprets the index from the end. -/
theorem c2_bufferLength_counterexample :
    ¬ sizeInv (runOps initB [.wr [5, 6], .rd (some (-1))]) := by
  decide

/-- C2 (amended): for every constructed stream and every sequence of
public operations in which each `read` argument is absent or nonnegative,
`bufferLength` equals the sum of the per-item size metrics over the buffer
after every operation. -/
theorem c2_bufferLength_invariant (o : MOptions) (ops : List Op)
    (h : ∀ op ∈ ops, readArgOkB op = true) :
    sizeInv (runOps (freshStream o) ops) := by
  have init : sizeInv (freshStream o) := by
    unfold sizeInv freshStream
    simp [sumSizes]
  have key : ∀ (l : List Op) (s : MState), (∀ op ∈ l, readArgOkB op = true) →
      sizeInv s → sizeInv (runOps s l) := by
    intro l
    induction l with
    | nil =>
      intro s _ hs
      exact hs
    | cons op rest ih =>
      intro s hl hs
      rw [runOps, List.foldl_cons]
      exact ih _ (fun q hq => hl q (by simp [hq]))
        (runOp_sizeInv s op hs (hl op (by simp)))
  exact key ops _ h init

/-- C2 (witness for the amended theorem): a concrete write and
nonnegative read. -/
theorem c2_bufferLength_invariant_witness :
    sizeInv (runOps (freshStream ⟨false, false, false, false⟩)
      [.wr [5, 6], .rd (some 1), .endO none]) :=
  c2_bufferLength_invariant ⟨false, false, false, false⟩
    [.wr [5, 6], .rd (some 1), .endO none] (by decide)

end MinipassSpec
